import Mathlib

/-!
Verification development for the ShadowSignal backend room/session state
machine (backend/src/state/rooms.ts and backend/src/handlers/room.handlers.ts).

The TypeScript code is shallowly embedded: JS objects with string keys become
association lists preserving insertion order (matching JS object key order),
`Math.random()` draws become explicit natural-number parameters, timers and
the delayed next-round transition become explicit flags in a system state,
and thrown errors become `Except` results.
-/

namespace ShadowSignal

/-! ## Data model (backend/src/types.ts) -/

inductive Role where
  | citizen
  | infiltrator
  | agent
  | spy
deriving DecidableEq, Repr

inductive Mode where
  | infiltrator
  | spy
deriving DecidableEq, Repr

inductive GamePhase where
  | lobby
  | speaking
  | voting
  | results
  | ended
deriving DecidableEq, Repr

structure Player where
  id : String
  name : String
  alive : Bool
deriving DecidableEq, Repr

structure Room where
  roomCode : String
  hostId : String
  players : List Player
  mode : Mode
  phase : GamePhase
  roles : List (String × Role)
  words : List (String × Option String)
  turnOrder : List String
  currentTurnIndex : Nat
  turnStartTime : Option Nat
  turnDuration : Nat
  votes : List (String × String)
  eliminated : List String
  lastEliminated : Option String
  round : Nat
  winner : Option String
  winningPlayers : List String
deriving DecidableEq, Repr

/-! ## Association-list helpers modelling JS objects

JS objects keep string keys in insertion order; assigning to an existing key
overwrites the value in place, assigning to a fresh key appends it. -/

def setA {α : Type} : List (String × α) → String → α → List (String × α)
  | [], k, v => [(k, v)]
  | e :: rest, k, v => if e.1 = k then (k, v) :: rest else e :: setA rest k v

def lookupA {α : Type} : List (String × α) → String → Option α
  | [], _ => none
  | e :: rest, k => if e.1 = k then some e.2 else lookupA rest k

/-! ## Random helpers (rooms.ts: choose, shuffle)

`choose` indexes by `Math.floor(Math.random() * arr.length)`; the draw is an
arbitrary natural taken modulo the length (on the empty list JS yields
`undefined`, modelled as `none`).  `shuffle` is the Fisher-Yates loop, with
one draw per loop index. -/

def chooseD {α : Type} (draw : Nat) (l : List α) : Option α :=
  l.get? (draw % l.length)

def swapL {α : Type} (l : List α) (i j : Nat) : List α :=
  match l.get? i, l.get? j with
  | some a, some b => (l.set i b).set j a
  | _, _ => l

def shuffleGo {α : Type} (draws : Nat → Nat) : Nat → List α → List α
  | 0, l => l
  | i + 1, l => shuffleGo draws i (swapL l (i + 1) (draws (i + 1) % (i + 2)))

def shuffle {α : Type} (draws : Nat → Nat) (l : List α) : List α :=
  shuffleGo draws (l.length - 1) l

/-- Draw sequence that makes the Fisher-Yates shuffle move the element at
index `k` to the front: identity swaps everywhere except at loop index `k`,
which swaps with position 0. -/
def pickDraws (k : Nat) : Nat → Nat :=
  fun m => if m = k then 0 else m

/-! ## String helpers modelling the JS methods used by the handlers

`String.prototype.trim` and `String.prototype.toLowerCase`, modelled
character-wise so that they evaluate on concrete inputs. -/

def trimJS (s : String) : String :=
  ⟨((s.data.dropWhile fun c => c.isWhitespace).reverse.dropWhile
      fun c => c.isWhitespace).reverse⟩

def toLowerJS (s : String) : String :=
  ⟨s.data.map Char.toLower⟩

/-! ## Word dataset (backend/src/types.ts, rooms.ts) -/

structure WordEntry where
  word : String
  similar : List String
deriving DecidableEq, Repr

structure Domain where
  name : String
  words : List WordEntry
deriving DecidableEq, Repr

structure WordDataset where
  domains : List Domain
deriving DecidableEq, Repr

def getWordPair (ds : WordDataset) (d1 d2 d3 : Nat) : Option (String × String) := do
  let domain ← chooseD d1 ds.domains
  let entry ← chooseD d2 domain.words
  let similarWord ← chooseD d3 entry.similar
  pure (entry.word, similarWord)

def getRandomWord (ds : WordDataset) (d1 d2 : Nat) : Option String := do
  let domain ← chooseD d1 ds.domains
  let entry ← chooseD d2 domain.words
  pure entry.word

/-! ## View projection (rooms.ts: getClientRoom) -/

structure ClientRoom where
  roomCode : String
  hostId : String
  players : List Player
  mode : Mode
  phase : GamePhase
  turnOrder : List String
  currentTurnIndex : Nat
  turnStartTime : Option Nat
  turnDuration : Nat
  votes : List (String × String)
  eliminated : List String
  lastEliminated : Option String
  round : Nat
  winner : Option String
  winningPlayers : List String
  myRole : Option Role
  myWord : Option (Option String)
deriving DecidableEq, Repr

def getClientRoom (room : Room) (playerId : String) : ClientRoom :=
  { roomCode := room.roomCode
    hostId := room.hostId
    players := room.players
    mode := room.mode
    phase := room.phase
    turnOrder := room.turnOrder
    currentTurnIndex := room.currentTurnIndex
    turnStartTime := room.turnStartTime
    turnDuration := room.turnDuration
    votes := room.votes
    eliminated := room.eliminated
    lastEliminated := room.lastEliminated
    round := room.round
    winner := room.winner
    winningPlayers := room.winningPlayers
    myRole := lookupA room.roles playerId
    myWord := lookupA room.words playerId }

/-! ## Room creation and joining (rooms.ts: createRoom, joinRoom;
room.handlers.ts: create-room, join-room) -/

def TURN_DURATION : Nat := 30 * 1000

def createRoom (roomCode hostId hostName : String) : Room :=
  { roomCode := roomCode
    hostId := hostId
    players := [{ id := hostId, name := hostName, alive := true }]
    mode := .infiltrator
    phase := .lobby
    roles := []
    words := []
    turnOrder := []
    currentTurnIndex := 0
    turnStartTime := none
    turnDuration := TURN_DURATION
    votes := []
    eliminated := []
    lastEliminated := none
    round := 1
    winner := none
    winningPlayers := [] }

def joinRoomCore (room : Room) (playerId playerName : String) : Except String Room :=
  if room.phase ≠ .lobby then .error "Game already in progress"
  else if room.players.any (fun p => toLowerJS p.name == toLowerJS playerName) then
    .error "Name already taken"
  else .ok { room with
    players := room.players ++ [{ id := playerId, name := playerName, alive := true }] }

def createRoomHandler (roomCode hostId : String) (name : String) : Except String Room :=
  if trimJS name == "" then .error "Name is required"
  else .ok (createRoom roomCode hostId (trimJS name))

def joinRoomHandler (roomLookup : Option Room) (playerId : String)
    (roomCode name : String) : Except String Room :=
  if trimJS name == "" then .error "Name is required"
  else if trimJS roomCode == "" then .error "Room code is required"
  else
    match roomLookup with
    | none => .error "Room not found"
    | some room => joinRoomCore room playerId (trimJS name)

/-! ## Player removal on disconnect (rooms.ts: removePlayer).
Returns `none` when the room becomes empty and is deleted. -/

def removePlayerCore (room : Room) (playerId : String) : Option Room :=
  match room.players.filter (fun p => !(p.id == playerId)) with
  | [] => none
  | q :: rest =>
    some { room with
      players := q :: rest
      hostId := if room.hostId == playerId then q.id else room.hostId }

/-! ## Game start (rooms.ts: startGame; room.handlers.ts: start-game) -/

structure StartDraws where
  special : Nat → Nat
  order : Nat → Nat
  w1 : Nat
  w2 : Nat
  w3 : Nat

/-- The randomly chosen odd-one-out: `shuffle(playerIds)[0]`.  The players
list has at least 3 members whenever this is used, so the shuffled list is
nonempty and the `""` default is never produced. -/
def specialPlayerIdOf (rs : StartDraws) (room : Room) : String :=
  (shuffle rs.special (room.players.map (fun p => p.id))).headD ""

/-- The role/word assignment loop of `startGame`: one value for the special
player, one shared value for everyone else, keyed by player id. -/
def assignMap {α : Type} (ps : List Player) (special : String) (oddVal regVal : α) :
    List (String × α) :=
  ps.foldl (fun m p => setA m p.id (if p.id == special then oddVal else regVal)) []

def reviveAll (ps : List Player) : List Player :=
  ps.map (fun p => { p with alive := true })

def startGameCore (ds : WordDataset) (rs : StartDraws) (now : Nat)
    (room : Room) (mode : Mode) : Except String Room :=
  if room.players.length < 3 then .error "Need at least 3 players to start"
  else
    match mode with
    | .infiltrator =>
      match getRandomWord ds rs.w1 rs.w2 with
      | none => .error "empty word dataset"
      | some secretWord =>
        .ok { room with
          mode := mode
          phase := GamePhase.speaking
          round := 1
          votes := []
          eliminated := []
          lastEliminated := none
          winner := none
          winningPlayers := []
          players := reviveAll room.players
          roles := assignMap (reviveAll room.players) (specialPlayerIdOf rs room)
            Role.infiltrator Role.citizen
          words := assignMap (reviveAll room.players) (specialPlayerIdOf rs room)
            none (some secretWord)
          turnOrder := shuffle rs.order (room.players.map (fun p => p.id))
          currentTurnIndex := 0
          turnStartTime := some now }
    | .spy =>
      match getWordPair ds rs.w1 rs.w2 rs.w3 with
      | none => .error "empty word dataset"
      | some pair =>
        .ok { room with
          mode := mode
          phase := GamePhase.speaking
          round := 1
          votes := []
          eliminated := []
          lastEliminated := none
          winner := none
          winningPlayers := []
          players := reviveAll room.players
          roles := assignMap (reviveAll room.players) (specialPlayerIdOf rs room)
            Role.spy Role.agent
          words := assignMap (reviveAll room.players) (specialPlayerIdOf rs room)
            (some pair.2) (some pair.1)
          turnOrder := shuffle rs.order (room.players.map (fun p => p.id))
          currentTurnIndex := 0
          turnStartTime := some now }

def startGameHandler (ds : WordDataset) (rs : StartDraws) (now : Nat)
    (roomLookup : Option Room) (callerId : String) (mode : Mode) : Except String Room :=
  match roomLookup with
  | none => .error "Room not found"
  | some room =>
    if room.hostId ≠ callerId then .error "Only host can start"
    else startGameCore ds rs now room mode

/-! ## Turn advancement (rooms.ts: skipTurn, advanceTurn)

`advanceTurnCore` returns the updated room together with whether the turn
timer is re-armed (`startTurnTimer`) or left disarmed (transition to voting). -/

def isAliveId (room : Room) (id : String) : Bool :=
  match room.players.find? (fun p => p.id == id) with
  | some p => p.alive
  | none => false

def advanceTurnCore (now : Nat) (room : Room) : Room × Bool :=
  if (room.turnOrder.filter (fun id => isAliveId room id)).length
      ≤ room.currentTurnIndex + 1 then
    ({ room with
        currentTurnIndex := room.currentTurnIndex + 1
        phase := GamePhase.voting
        votes := []
        turnStartTime := none }, false)
  else
    ({ room with
        currentTurnIndex := room.currentTurnIndex + 1
        turnOrder := room.turnOrder.filter (fun id => isAliveId room id)
        turnStartTime := some now }, true)

def skipTurnCore (now : Nat) (room : Room) (playerId : String) :
    Except String (Room × Bool) :=
  if room.phase ≠ .speaking then .error "Not in speaking phase"
  else if room.turnOrder.get? room.currentTurnIndex ≠ some playerId then
    .error "Not your turn"
  else .ok (advanceTurnCore now room)

/-! ## Vote tallying and elimination (rooms.ts: castVote, processVotes,
checkWinCondition, getWinningPlayers) -/

def bump : List (String × Nat) → String → List (String × Nat)
  | [], k => [(k, 1)]
  | e :: rest, k => if e.1 = k then (e.1, e.2 + 1) :: rest else e :: bump rest k

def tallyOf (votes : List (String × String)) : List (String × Nat) :=
  votes.foldl (fun t v => bump t v.2) []

def maxStep (acc : Nat × List String) (e : String × Nat) : Nat × List String :=
  if e.2 > acc.1 then (e.2, [e.1])
  else if e.2 == acc.1 then (acc.1, acc.2 ++ [e.1])
  else acc

def maxCandidates (t : List (String × Nat)) : Nat × List String :=
  t.foldl maxStep (0, [])

def markEliminated : List Player → String → List Player
  | [], _ => []
  | p :: rest, eid =>
    if p.id == eid then { p with alive := false } :: rest
    else p :: markEliminated rest eid

def checkWinCondition (room : Room) : Option String :=
  let alivePlayers := room.players.filter (fun p => p.alive)
  let aliveCount := alivePlayers.length
  match room.mode with
  | .infiltrator =>
    match room.roles.find? (fun e => e.2 == Role.infiltrator) with
    | none => none
    | some e =>
      let infiltratorAlive := alivePlayers.any (fun p => p.id == e.1)
      if !infiltratorAlive then some "citizens"
      else if aliveCount ≤ 2 then some "infiltrator"
      else none
  | .spy =>
    match room.roles.find? (fun e => e.2 == Role.spy) with
    | none => none
    | some e =>
      let spyAlive := alivePlayers.any (fun p => p.id == e.1)
      if !spyAlive then some "agents"
      else if aliveCount ≤ 2 then some "spy"
      else none

def getWinningPlayers (room : Room) (winner : String) : List String :=
  if winner == "citizens" then
    (room.roles.filter (fun e => e.2 == Role.citizen)).map (fun e => e.1)
  else if winner == "infiltrator" then
    (room.roles.filter (fun e => e.2 == Role.infiltrator)).map (fun e => e.1)
  else if winner == "agents" then
    (room.roles.filter (fun e => e.2 == Role.agent)).map (fun e => e.1)
  else if winner == "spy" then
    (room.roles.filter (fun e => e.2 == Role.spy)).map (fun e => e.1)
  else []

/-- First half of `processVotes`: tally the votes, pick the eliminated player
(random tiebreaker), mark them not alive. -/
def applyElimination (draw : Nat) (room : Room) : Room :=
  match chooseD draw (maxCandidates (tallyOf room.votes)).2 with
  | none => room
  | some eliminatedId =>
    match room.players.find? (fun p => p.id == eliminatedId) with
    | none => room
    | some _ =>
      { room with
        players := markEliminated room.players eliminatedId
        eliminated := room.eliminated ++ [eliminatedId]
        lastEliminated := some eliminatedId }

/-- Second half of `processVotes`: evaluate the win condition and move to
`ended` (winner) or `results` (continue; the caller schedules the 5-second
next-round callback in this case). -/
def processVotesCore (draw : Nat) (room : Room) : Room :=
  match checkWinCondition (applyElimination draw room) with
  | some w =>
    { applyElimination draw room with
      phase := GamePhase.ended
      winner := some w
      winningPlayers := getWinningPlayers (applyElimination draw room) w }
  | none => { applyElimination draw room with phase := GamePhase.results }

def castVoteCore (draw : Nat) (room : Room) (voterId targetId : String) :
    Except String Room :=
  if room.phase ≠ .voting then .error "Not in voting phase"
  else
    match room.players.find? (fun p => p.id == voterId) with
    | none => .error "You cannot vote"
    | some voter =>
      if !voter.alive then .error "You cannot vote"
      else
        match room.players.find? (fun p => p.id == targetId) with
        | none => .error "Invalid vote target"
        | some target =>
          if !target.alive then .error "Invalid vote target"
          else
            if (room.players.filter (fun p => p.alive)).length
                ≤ (setA room.votes voterId targetId).length then
              .ok (processVotesCore draw
                { room with votes := setA room.votes voterId targetId })
            else .ok { room with votes := setA room.votes voterId targetId }

def castVoteTop (draw : Nat) (roomLookup : Option Room) (voterId targetId : String) :
    Except String Room :=
  match roomLookup with
  | none => .error "Room not found"
  | some room => castVoteCore draw room voterId targetId

/-! ## Next round and reset (rooms.ts: startNextRound, resetGame) -/

def startNextRoundCore (orderDraws : Nat → Nat) (now : Nat) (room : Room) : Room :=
  let alivePlayers := room.players.filter (fun p => p.alive)
  { room with
    round := room.round + 1
    phase := GamePhase.speaking
    votes := []
    lastEliminated := none
    turnOrder := shuffle orderDraws (alivePlayers.map (fun p => p.id))
    currentTurnIndex := 0
    turnStartTime := some now }

def resetGameCore (room : Room) : Room :=
  { room with
    phase := GamePhase.lobby
    roles := []
    words := []
    turnOrder := []
    currentTurnIndex := 0
    turnStartTime := none
    votes := []
    eliminated := []
    lastEliminated := none
    round := 1
    winner := none
    winningPlayers := []
    players := room.players.map (fun p => { p with alive := true }) }

/-! ## Derived views of a room -/

def aliveCountOf (room : Room) : Nat :=
  (room.players.filter (fun p => p.alive)).length

def aliveIdsOf (room : Room) : List String :=
  (room.players.filter (fun p => p.alive)).map (fun p => p.id)

def voteKeys (room : Room) : List String :=
  room.votes.map Prod.fst

/-- Vote keys that belong to a player currently in the room. -/
def presentVoteKeys (room : Room) : List String :=
  (voteKeys room).filter (fun k => (room.players.find? (fun p => p.id == k)).isSome)

/-! ## Spec-modelled definitions

These follow the wording of the specification, for comparison with the
code-derived functions above. -/

def oddRoleOf : Mode → Role
  | .infiltrator => .infiltrator
  | .spy => .spy

def regularRoleOf : Mode → Role
  | .infiltrator => .citizen
  | .spy => .agent

def oddWinLabelOf : Mode → String
  | .infiltrator => "infiltrator"
  | .spy => "spy"

def regularsWinLabelOf : Mode → String
  | .infiltrator => "citizens"
  | .spy => "agents"

/-- Modelled from the spec: the winning side label each role belongs to. -/
def sideLabelOfRole : Role → String
  | .citizen => "citizens"
  | .infiltrator => "infiltrator"
  | .agent => "agents"
  | .spy => "spy"

/-- Modelled from the spec, literal reading: regulars win when the odd-one-out
is no longer alive; else the odd-one-out wins when EXACTLY 2 players remain
alive with the odd-one-out among them; else no winner. -/
def winConditionSpecExact (room : Room) : Option String :=
  match room.roles.find? (fun e => e.2 == oddRoleOf room.mode) with
  | none => none
  | some e =>
    let oddAlive := (room.players.filter (fun p => p.alive)).any (fun p => p.id == e.1)
    if !oddAlive then some (regularsWinLabelOf room.mode)
    else if aliveCountOf room = 2 then some (oddWinLabelOf room.mode)
    else none

/-- Modelled from the spec, amended reading: as `winConditionSpecExact` but
with "exactly 2 players remain alive" weakened to "at most 2". -/
def winConditionSpecAtMostTwo (room : Room) : Option String :=
  match room.roles.find? (fun e => e.2 == oddRoleOf room.mode) with
  | none => none
  | some e =>
    let oddAlive := (room.players.filter (fun p => p.alive)).any (fun p => p.id == e.1)
    if !oddAlive then some (regularsWinLabelOf room.mode)
    else if aliveCountOf room ≤ 2 then some (oddWinLabelOf room.mode)
    else none

/-- Modelled from the spec: all identifiers whose assigned role matches the
winning side label. -/
def winningPlayersSpec (room : Room) (winner : String) : List String :=
  (room.roles.filter (fun e => sideLabelOfRole e.2 == winner)).map (fun e => e.1)

/-- Modelled from the spec: vote counts per target among the votes submitted
by currently-alive players. -/
def tallySpecAliveVoters (room : Room) : List (String × Nat) :=
  tallyOf (room.votes.filter (fun e => isAliveId room e.1))

/-! ## System state: room plus timer handle plus pending 5-second
next-round callbacks

`timer` models the per-room entry in `roomTimers` (the turn timer that
`startTurnTimer` arms and `clearTimeout` disarms).  `pending` counts the
anonymous `setTimeout(() => startNextRound(io, room), 5000)` callbacks
scheduled by `processVotes`; these are NOT stored in `roomTimers`, so
nothing ever cancels them. -/

structure Sys where
  room : Option Room
  timer : Bool
  pending : Nat
deriving DecidableEq, Repr

def initSys (roomCode hostId hostName : String) : Sys :=
  { room := some (createRoom roomCode hostId hostName), timer := false, pending := 0 }

/-- One externally-triggered action processed to completion, as serialized
by the single-threaded runtime. -/
inductive Step (ds : WordDataset) : Sys → Sys → Prop where
  | join (s : Sys) (r r2 : Room) (pid pname : String) :
      s.room = some r → joinRoomCore r pid pname = .ok r2 →
      Step ds s ⟨some r2, s.timer, s.pending⟩
  | start (s : Sys) (r r2 : Room) (caller : String) (mode : Mode)
      (rs : StartDraws) (now : Nat) :
      s.room = some r → r.hostId = caller → startGameCore ds rs now r mode = .ok r2 →
      Step ds s ⟨some r2, true, s.pending⟩
  | skip (s : Sys) (r r2 : Room) (pid : String) (now : Nat) (armed : Bool) :
      s.room = some r → skipTurnCore now r pid = .ok (r2, armed) →
      Step ds s ⟨some r2, armed, s.pending⟩
  | timerFire (s : Sys) (r r2 : Room) (now : Nat) (armed : Bool) :
      s.timer = true → s.room = some r → advanceTurnCore now r = (r2, armed) →
      Step ds s ⟨some r2, armed, s.pending⟩
  | vote (s : Sys) (r r2 : Room) (voter target : String) (draw : Nat) :
      s.room = some r → castVoteCore draw r voter target = .ok r2 →
      Step ds s ⟨some r2,
        (if r2.phase = GamePhase.ended then false else s.timer),
        s.pending + (if r2.phase = GamePhase.results then 1 else 0)⟩
  | removeKeep (s : Sys) (r r2 : Room) (pid : String) :
      s.room = some r → removePlayerCore r pid = some r2 →
      Step ds s ⟨some r2, s.timer, s.pending⟩
  | removeLast (s : Sys) (r : Room) (pid : String) :
      s.room = some r → removePlayerCore r pid = none →
      Step ds s ⟨none, false, s.pending⟩
  | reset (s : Sys) (r : Room) (caller : String) :
      s.room = some r → r.hostId = caller →
      Step ds s ⟨some (resetGameCore r), false, s.pending⟩
  | nextRound (s : Sys) (r : Room) (n : Nat) (orderDraws : Nat → Nat) (now : Nat) :
      s.pending = n + 1 → s.room = some r →
      Step ds s ⟨some (startNextRoundCore orderDraws now r), true, n⟩
  | nextRoundGone (s : Sys) (n : Nat) :
      s.pending = n + 1 → s.room = none →
      Step ds s ⟨none, s.timer, n⟩

def Reachable (ds : WordDataset) (s0 s : Sys) : Prop :=
  Relation.ReflTransGen (Step ds) s0 s

/-- States inside one started game: reached from a `start-game` action without
the room having returned to the lobby (or been deleted) in between. -/
inductive InGame (ds : WordDataset) : Sys → Prop where
  | start (s : Sys) (r r2 : Room) (caller : String) (mode : Mode)
      (rs : StartDraws) (now : Nat) :
      s.room = some r → r.hostId = caller → startGameCore ds rs now r mode = .ok r2 →
      InGame ds ⟨some r2, true, s.pending⟩
  | step (s s2 : Sys) (r2 : Room) :
      InGame ds s → Step ds s s2 → s2.room = some r2 → r2.phase ≠ GamePhase.lobby →
      InGame ds s2

/-! ## Lemmas about association lists -/

def keysA {α : Type} (m : List (String × α)) : List String := m.map Prod.fst

/-! ## Lemmas about the vote tally and the maximum-candidate fold -/

def maxValOf : List (String × Nat) → Nat
  | [] => 0
  | e :: t => max e.2 (maxValOf t)

def keysWithVal (t : List (String × Nat)) (m : Nat) : List String :=
  (t.filter (fun e => e.2 == m)).map (fun e => e.1)

def longName : String := "ABCDEFGHIJKLMNOPQRSTU"

/-! ## The system invariant backing claims C5 and C7 -/

def VotesWF (r : Room) : Prop :=
  (keysA r.votes).Nodup ∧
  (r.phase = GamePhase.voting →
    ∀ e ∈ r.votes, ∀ p, r.players.find? (fun q => q.id == e.1) = some p →
      p.alive = true)

def SysInv (s : Sys) : Prop :=
  (∀ r, s.room = some r → VotesWF r) ∧
  (s.timer = true → ∃ r, s.room = some r ∧ r.phase = GamePhase.speaking)

/-! ## Claim C7: exactly one odd-one-out per started game -/

def GoodRoles (r : Room) : Prop :=
  (r.roles.filter (fun e => e.2 == oddRoleOf r.mode)).length = 1 ∧
  ∀ e ∈ r.roles, e.2 = oddRoleOf r.mode ∨ e.2 = regularRoleOf r.mode

/-! ## Concrete sample data and reachable traces -/

def ds0 : WordDataset := ⟨[⟨"animals", [⟨"dog", ["wolf"]⟩]⟩]⟩

def rs0 : StartDraws := ⟨fun _ => 0, fun _ => 0, 0, 0, 0⟩

def od0 : Nat → Nat := fun _ => 0

def roomA : Room := createRoom "XXXXX" "A" "a"

def roomAB : Room :=
  { roomA with players := roomA.players ++ [{ id := "B", name := "b", alive := true }] }

def roomABC : Room :=
  { roomAB with players := roomAB.players ++ [{ id := "C", name := "c", alive := true }] }

def roomABCD : Room :=
  { roomABC with players := roomABC.players ++ [{ id := "D", name := "d", alive := true }] }

def startedABC : Room :=
  (startGameCore ds0 rs0 100 roomABC Mode.infiltrator).toOption.getD roomA

def s3a : Room := (advanceTurnCore 200 startedABC).1

def s3b : Room := (advanceTurnCore 300 s3a).1

def s3v : Room := (advanceTurnCore 400 s3b).1

/-! ## Counterexample trace for claim C1 (disconnect during voting, then the
remaining citizen is eliminated: 1 player remains alive, yet a winner is
declared) -/

def c1r1 : Room := (removePlayerCore s3v "C").getD roomA

def c1r2 : Room := (castVoteCore 0 c1r1 "B" "A").toOption.getD roomA

def c1r3 : Room := (castVoteCore 0 c1r2 "A" "A").toOption.getD roomA

/-! ## Counterexample trace for claim C5 (two voters disconnect after
voting: the votes map is larger than the alive-player count) -/

def c5r1 : Room := (castVoteCore 0 s3v "A" "B").toOption.getD roomA

def c5r2 : Room := (castVoteCore 0 c5r1 "B" "A").toOption.getD roomA

def c5r3 : Room := (removePlayerCore c5r2 "A").getD roomA

def c5r4 : Room := (removePlayerCore c5r3 "B").getD roomA

/-! ## Four-player traces (for claims C3 and C6) -/

def started4 : Room :=
  (startGameCore ds0 rs0 100 roomABCD Mode.infiltrator).toOption.getD roomA

def s4a : Room := (advanceTurnCore 200 started4).1

def s4b : Room := (advanceTurnCore 300 s4a).1

def s4c : Room := (advanceTurnCore 400 s4b).1

def s4v : Room := (advanceTurnCore 500 s4c).1

/-! ## Counterexample trace for claim C3 (a removed player's vote still
counts in the tally) -/

def c3r1 : Room := (castVoteCore 0 s4v "D" "B").toOption.getD roomA

def c3r2 : Room := (removePlayerCore c3r1 "D").getD roomA

def c3r3 : Room := (castVoteCore 0 c3r2 "A" "B").toOption.getD roomA

def c3r4 : Room := (castVoteCore 0 c3r3 "B" "C").toOption.getD roomA

/-! ## Trace for claim C6 (the 5-second next-round callback survives a
reset and pulls the room out of the lobby) -/

def c6r1 : Room := (castVoteCore 0 s4v "A" "D").toOption.getD roomA

def c6r2 : Room := (castVoteCore 0 c6r1 "B" "D").toOption.getD roomA

def c6r3 : Room := (castVoteCore 0 c6r2 "C" "D").toOption.getD roomA

def c6r4 : Room := (castVoteCore 0 c6r3 "D" "A").toOption.getD roomA

def c6r5 : Room := resetGameCore c6r4

def c6r6 : Room := startNextRoundCore od0 900 c6r5

def tallyRoomW : Room :=
  { roomABC with
    phase := GamePhase.voting
    votes := [("A", "B"), ("C", "B"), ("B", "A")] }

def voteRoomW : Room := { roomABC with phase := GamePhase.voting }

def voteResW : Room := (castVoteTop 0 (some voteRoomW) "A" "B").toOption.getD roomA

theorem lookupA_setA_self {α : Type} (m : List (String × α)) (k : String) (v : α) :
    lookupA (setA m k v) k = some v := by
  induction m with
  | nil => simp [setA, lookupA]
  | cons e rest ih =>
    by_cases h : e.1 = k
    · simp [setA, lookupA, h]
    · simp [setA, lookupA, h, ih]

theorem lookupA_setA_ne {α : Type} (m : List (String × α)) (k k2 : String) (v : α)
    (h : k2 ≠ k) : lookupA (setA m k v) k2 = lookupA m k2 := by
  induction m with
  | nil =>
    have hne : ¬ k = k2 := fun hh => h hh.symm
    simp [setA, lookupA, hne]
  | cons e rest ih =>
    by_cases he : e.1 = k
    · subst he
      have hne : ¬ e.1 = k2 := fun hh => h hh.symm
      simp [setA, lookupA, hne]
    · simp [setA, lookupA, he, ih]

theorem keysA_setA {α : Type} (m : List (String × α)) (k : String) (v : α) :
    keysA (setA m k v) = if (lookupA m k).isSome then keysA m else keysA m ++ [k] := by
  induction m with
  | nil => simp [setA, lookupA, keysA]
  | cons e rest ih =>
    by_cases h : e.1 = k
    · simp [setA, lookupA, keysA, h]
    · have hs : setA (e :: rest) k v = e :: setA rest k v := by simp [setA, h]
      have hl : lookupA (e :: rest) k = lookupA rest k := by simp [lookupA, h]
      rw [hs, hl]
      simp only [keysA, List.map_cons]
      simp only [keysA] at ih
      rw [ih]
      by_cases h2 : (lookupA rest k).isSome <;> simp [h2]

theorem length_setA {α : Type} (m : List (String × α)) (k : String) (v : α) :
    (setA m k v).length = if (lookupA m k).isSome then m.length else m.length + 1 := by
  have h := keysA_setA m k v
  have h1 : (setA m k v).length = (keysA (setA m k v)).length := by simp [keysA]
  have h2 : m.length = (keysA m).length := by simp [keysA]
  rw [h1, h, h2]
  by_cases hs : (lookupA m k).isSome <;> simp [hs]

theorem length_setA_le {α : Type} (m : List (String × α)) (k : String) (v : α) :
    (setA m k v).length ≤ m.length + 1 := by
  rw [length_setA]
  by_cases hs : (lookupA m k).isSome <;> simp [hs]

theorem mem_keysA_iff_lookupA {α : Type} (m : List (String × α)) (k : String) :
    k ∈ keysA m ↔ (lookupA m k).isSome := by
  induction m with
  | nil => simp [keysA, lookupA]
  | cons e rest ih =>
    by_cases h : e.1 = k
    · simp [keysA, lookupA, h]
    · have hne : ¬ k = e.1 := fun hh => h hh.symm
      simp only [keysA, List.map_cons, List.mem_cons]
      simp only [keysA] at ih
      simp [lookupA, h, ih, hne]

theorem keysA_setA_nodup {α : Type} (m : List (String × α)) (k : String) (v : α)
    (h : (keysA m).Nodup) : (keysA (setA m k v)).Nodup := by
  rw [keysA_setA]
  by_cases hs : (lookupA m k).isSome
  · simpa [hs] using h
  · have hk : k ∉ keysA m := by
      rw [mem_keysA_iff_lookupA]
      simp_all
    simp [hs, List.nodup_append, h, hk]

theorem lookupA_of_mem_keysA {α : Type} (m : List (String × α)) (e : String × α)
    (h : e ∈ m) : (lookupA m e.1).isSome := by
  induction m with
  | nil => simp at h
  | cons f rest ih =>
    cases h with
    | head => simp [lookupA]
    | tail _ hmem =>
      by_cases hf : f.1 = e.1 <;> simp [lookupA, hf, ih hmem]

/-! ## Lemmas about the Fisher-Yates shuffle -/

theorem count_set_add {α : Type} [DecidableEq α] (l : List α) (n : Nat) (a x : α)
    (h : n < l.length) :
    (l.set n a).count x + (if l[n] = x then 1 else 0)
      = l.count x + (if a = x then 1 else 0) := by
  induction l generalizing n with
  | nil => simp at h
  | cons b t ih =>
    cases n with
    | zero =>
      simp only [List.set_cons_zero, List.count_cons, beq_iff_eq, List.getElem_cons_zero]
      split_ifs <;> omega
    | succ n =>
      have hn : n < t.length := by simpa using h
      have := ih n hn
      simp only [List.set_cons_succ, List.count_cons, beq_iff_eq, List.getElem_cons_succ]
      split_ifs at this ⊢ <;> omega

theorem swapL_perm {α : Type} [DecidableEq α] (l : List α) (i j : Nat) :
    (swapL l i j).Perm l := by
  unfold swapL
  split
  · rename_i a b hi hj
    rw [List.get?_eq_getElem?] at hi hj
    obtain ⟨hilt, hie⟩ := List.getElem?_eq_some_iff.mp hi
    obtain ⟨hjlt, hje⟩ := List.getElem?_eq_some_iff.mp hj
    have hj2 : j < (l.set i b).length := by rw [List.length_set]; exact hjlt
    have hbj : (l.set i b)[j] = b := by
      rw [List.getElem_set]
      split <;> simp [hje]
    apply List.perm_iff_count.mpr
    intro x
    have A := count_set_add (l.set i b) j a x hj2
    rw [hbj] at A
    have B := count_set_add l i b x hilt
    rw [hie] at B
    split_ifs at A B <;> omega
  · exact .refl l

theorem shuffleGo_perm {α : Type} [DecidableEq α] (draws : Nat → Nat) :
    ∀ (n : Nat) (l : List α), (shuffleGo draws n l).Perm l
  | 0, l => .refl l
  | n + 1, l =>
    (shuffleGo_perm draws n _).trans (swapL_perm l (n + 1) (draws (n + 1) % (n + 2)))

theorem shuffle_perm {α : Type} [DecidableEq α] (draws : Nat → Nat) (l : List α) :
    (shuffle draws l).Perm l :=
  shuffleGo_perm draws (l.length - 1) l

theorem set_getElem_self {α : Type} (l : List α) (m : Nat) (h : m < l.length) :
    l.set m l[m] = l := by
  induction l generalizing m with
  | nil => simp at h
  | cons b t ih =>
    cases m with
    | zero => rfl
    | succ m => simp [List.set_cons_succ, ih m (by simpa using h)]

theorem swapL_self {α : Type} (l : List α) (m : Nat) : swapL l m m = l := by
  unfold swapL
  cases hm : l.get? m with
  | none => rfl
  | some a =>
    rw [List.get?_eq_getElem?] at hm
    obtain ⟨hlt, hget⟩ := List.getElem?_eq_some_iff.mp hm
    show (l.set m a).set m a = l
    rw [List.set_set, ← hget]
    exact set_getElem_self l m hlt

theorem shuffleGo_id {α : Type} (draws : Nat → Nat) :
    ∀ (n : Nat) (l : List α),
    (∀ m, 1 ≤ m → m ≤ n → draws m % (m + 1) = m) → shuffleGo draws n l = l := by
  intro n
  induction n with
  | zero => intro l _; rfl
  | succ n ih =>
    intro l h
    show shuffleGo draws n (swapL l (n + 1) (draws (n + 1) % (n + 2))) = l
    rw [h (n + 1) (by omega) (by omega), swapL_self]
    exact ih l (fun m h1 h2 => h m h1 (by omega))

theorem shuffleGo_pick {α : Type} (k : Nat) (hk : 1 ≤ k) :
    ∀ (n : Nat), k ≤ n → ∀ (l : List α),
    shuffleGo (pickDraws k) n l = swapL l k 0 := by
  intro n hn
  induction n, hn using Nat.le_induction with
  | base =>
    intro l
    cases k with
    | zero => omega
    | succ km =>
      show shuffleGo (pickDraws (km + 1)) km
        (swapL l (km + 1) (pickDraws (km + 1) (km + 1) % (km + 2))) = _
      have hd : pickDraws (km + 1) (km + 1) % (km + 2) = 0 := by
        simp [pickDraws]
      rw [hd]
      refine shuffleGo_id (pickDraws (km + 1)) km _ ?_
      intro m h1 h2
      have hne : m ≠ km + 1 := by omega
      simp [pickDraws, hne, Nat.mod_eq_of_lt (Nat.lt_succ_self m)]
  | succ n hn ih =>
    intro l
    show shuffleGo (pickDraws k) n
      (swapL l (n + 1) (pickDraws k (n + 1) % (n + 2))) = _
    have hne : n + 1 ≠ k := by omega
    have hd : pickDraws k (n + 1) % (n + 2) = n + 1 := by
      simp [pickDraws, hne, Nat.mod_eq_of_lt (Nat.lt_succ_self (n + 1))]
    rw [hd, swapL_self]
    exact ih l

theorem headD_eq_getElem {α : Type} (l : List α) (d : α) (h : 0 < l.length) :
    l.headD d = l.get ⟨0, h⟩ := by
  cases l with
  | nil => simp at h
  | cons a t => rfl

theorem shuffle_pick_head {α : Type} (l : List α) (d : α) (k : Nat)
    (hk : k < l.length) :
    (shuffle (pickDraws k) l).headD d = l.get ⟨k, hk⟩ := by
  have h0 : 0 < l.length := by omega
  unfold shuffle
  by_cases hk0 : k = 0
  · subst hk0
    rw [shuffleGo_id (pickDraws 0) (l.length - 1) l ?hid]
    case hid =>
      intro m h1 h2
      have hne : m ≠ 0 := by omega
      simp [pickDraws, hne, Nat.mod_eq_of_lt (Nat.lt_succ_self m)]
    exact headD_eq_getElem l d h0
  · have hk1 : 1 ≤ k := by omega
    rw [shuffleGo_pick k hk1 (l.length - 1) (by omega) l]
    have hq : l.get? k = some (l.get ⟨k, hk⟩) := by
      rw [List.get?_eq_getElem?]
      exact List.getElem?_eq_some_iff.mpr ⟨hk, rfl⟩
    have hq0 : l.get? 0 = some (l.get ⟨0, h0⟩) := by
      rw [List.get?_eq_getElem?]
      exact List.getElem?_eq_some_iff.mpr ⟨h0, rfl⟩
    unfold swapL
    simp only [hq, hq0]
    have hlen : 0 < ((l.set k (l.get ⟨0, h0⟩)).set 0 (l.get ⟨k, hk⟩)).length := by
      simp [h0]
    rw [headD_eq_getElem _ d hlen]
    simp [List.getElem_set]

theorem headD_mem {α : Type} (l : List α) (d : α) (h : l ≠ []) : l.headD d ∈ l := by
  cases l with
  | nil => exact absurd rfl h
  | cons a t => simp

theorem shuffle_length {α : Type} [DecidableEq α] (draws : Nat → Nat) (l : List α) :
    (shuffle draws l).length = l.length :=
  (shuffle_perm draws l).length_eq

/-! ## Lemmas about the role/word assignment folds -/

theorem lookupA_foldl_setA {α : Type} (ps : List Player) (f : String → α)
    (m0 : List (String × α)) (k : String) :
    lookupA (ps.foldl (fun m p => setA m p.id (f p.id)) m0) k
      = if k ∈ ps.map (fun p => p.id) then some (f k) else lookupA m0 k := by
  induction ps generalizing m0 with
  | nil => simp
  | cons p rest ih =>
    simp only [List.foldl_cons, ih, List.map_cons, List.mem_cons]
    by_cases hk : k ∈ rest.map (fun p => p.id)
    · simp [hk]
    · by_cases hp : k = p.id
      · simp [hk, hp, lookupA_setA_self]
      · simp [hk, hp, lookupA_setA_ne _ _ _ _ hp]

theorem keysA_foldl_setA_nodup {α : Type} (ps : List Player) (f : String → α)
    (m0 : List (String × α)) (h : (keysA m0).Nodup) :
    (keysA (ps.foldl (fun m p => setA m p.id (f p.id)) m0)).Nodup := by
  induction ps generalizing m0 with
  | nil => exact h
  | cons p rest ih => exact ih _ (keysA_setA_nodup _ _ _ h)

theorem val_of_mem_setA {α : Type} (m : List (String × α)) (k : String) (v : α)
    (f : String → α) (h0 : ∀ e ∈ m, e.2 = f e.1) (hv : v = f k) :
    ∀ e ∈ setA m k v, e.2 = f e.1 := by
  induction m with
  | nil => simp [setA, hv]
  | cons g rest ih =>
    intro e he
    by_cases hg : g.1 = k
    · simp only [setA, hg, if_pos] at he
      rcases List.mem_cons.mp he with h | h
      · simp [h, hv]
      · exact h0 e (List.mem_cons_of_mem _ h)
    · simp only [setA, hg, if_neg, ite_false] at he
      rcases List.mem_cons.mp he with h | h
      · exact h ▸ h0 g (List.mem_cons_self _ _)
      · exact ih (fun e2 he2 => h0 e2 (List.mem_cons_of_mem _ he2)) e h

theorem val_of_mem_foldl_setA {α : Type} (ps : List Player) (f : String → α)
    (m0 : List (String × α)) (h0 : ∀ e ∈ m0, e.2 = f e.1) :
    ∀ e ∈ ps.foldl (fun m p => setA m p.id (f p.id)) m0, e.2 = f e.1 := by
  induction ps generalizing m0 with
  | nil => exact h0
  | cons p rest ih =>
    exact ih _ (val_of_mem_setA _ _ _ _ h0 rfl)

theorem mem_keysA_foldl_setA {α : Type} (ps : List Player) (f : String → α)
    (m0 : List (String × α)) (k : String) :
    k ∈ keysA (ps.foldl (fun m p => setA m p.id (f p.id)) m0)
      ↔ k ∈ ps.map (fun p => p.id) ∨ k ∈ keysA m0 := by
  rw [mem_keysA_iff_lookupA, lookupA_foldl_setA, mem_keysA_iff_lookupA]
  by_cases hk : k ∈ ps.map (fun p => p.id) <;> simp [hk]

theorem keysWithVal_cons (e : String × Nat) (rest : List (String × Nat)) (m : Nat) :
    keysWithVal (e :: rest) m
      = (if e.2 = m then [e.1] else []) ++ keysWithVal rest m := by
  by_cases h : e.2 = m <;> simp [keysWithVal, List.filter_cons, h]

theorem keysWithVal_eq_nil (t : List (String × Nat)) (m : Nat)
    (h : ∀ e ∈ t, ¬ e.2 = m) : keysWithVal t m = [] := by
  simp only [keysWithVal, List.map_eq_nil_iff, List.filter_eq_nil_iff]
  intro e he
  simpa using h e he

theorem maxValOf_le_of (t : List (String × Nat)) (b : Nat)
    (h : ∀ e ∈ t, e.2 ≤ b) : maxValOf t ≤ b := by
  induction t with
  | nil => simp [maxValOf]
  | cons e rest ih =>
    have h1 := h e (List.mem_cons_self _ _)
    have h2 := ih (fun e2 he2 => h e2 (List.mem_cons_of_mem _ he2))
    simp only [maxValOf]
    omega

theorem foldl_maxStep_char (t : List (String × Nat)) :
    ∀ (m : Nat) (c : List String),
    t.foldl maxStep (m, c)
      = (max m (maxValOf t),
         if maxValOf t ≤ m then c ++ keysWithVal t m
         else keysWithVal t (maxValOf t)) := by
  induction t with
  | nil =>
    intro m c
    simp [maxValOf, keysWithVal]
  | cons e rest ih =>
    intro m c
    simp only [List.foldl_cons, maxValOf]
    by_cases h1 : e.2 > m
    · have hstep : maxStep (m, c) e = (e.2, [e.1]) := by
        simp [maxStep, h1]
      rw [hstep, ih]
      simp only [Prod.mk.injEq]
      constructor
      · omega
      · by_cases h2 : maxValOf rest ≤ e.2
        · have hmax : max e.2 (maxValOf rest) = e.2 := by omega
          rw [if_pos h2, if_neg (by omega), hmax, keysWithVal_cons, if_pos rfl]
        · have hmax : max e.2 (maxValOf rest) = maxValOf rest := by omega
          rw [if_neg h2, if_neg (by omega), hmax, keysWithVal_cons, if_neg (by omega)]
          simp
    · by_cases h2 : e.2 = m
      · have hstep : maxStep (m, c) e = (m, c ++ [e.1]) := by
          simp [maxStep, h1, h2]
        rw [hstep, ih]
        simp only [Prod.mk.injEq]
        constructor
        · omega
        · by_cases h3 : maxValOf rest ≤ m
          · rw [if_pos h3, if_pos (by omega), keysWithVal_cons, if_pos h2]
            simp
          · have hmax : max e.2 (maxValOf rest) = maxValOf rest := by omega
            rw [if_neg h3, if_neg (by omega), hmax, keysWithVal_cons, if_neg (by omega)]
            simp
      · have hstep : maxStep (m, c) e = (m, c) := by
          simp [maxStep, h1, h2]
        rw [hstep, ih]
        simp only [Prod.mk.injEq]
        constructor
        · omega
        · by_cases h3 : maxValOf rest ≤ m
          · rw [if_pos h3, if_pos (by omega), keysWithVal_cons, if_neg (by omega)]
            simp
          · have hmax : max e.2 (maxValOf rest) = maxValOf rest := by omega
            rw [if_neg h3, if_neg (by omega), hmax, keysWithVal_cons, if_neg (by omega)]
            simp

theorem maxCandidates_eq (t : List (String × Nat)) :
    maxCandidates t = (maxValOf t, keysWithVal t (maxValOf t)) := by
  unfold maxCandidates
  rw [foldl_maxStep_char]
  simp only [Prod.mk.injEq]
  constructor
  · omega
  · by_cases h : maxValOf t ≤ 0
    · have h0 : maxValOf t = 0 := by omega
      rw [if_pos h, h0]
      simp
    · rw [if_neg h]

theorem keysWithVal_single (t : List (String × Nat)) (k0 : String) (c0 : Nat)
    (hmem : (k0, c0) ∈ t) (hnodup : (keysA t).Nodup)
    (hmax : ∀ e ∈ t, e.1 ≠ k0 → e.2 < c0) :
    maxValOf t = c0 ∧ keysWithVal t c0 = [k0] := by
  induction t with
  | nil => simp at hmem
  | cons e rest ih =>
    have hnd : (e.1 :: keysA rest).Nodup := by
      simpa [keysA] using hnodup
    have hnd1 : e.1 ∉ keysA rest := (List.nodup_cons.mp hnd).1
    have hnd2 : (keysA rest).Nodup := (List.nodup_cons.mp hnd).2
    cases hmem with
    | head =>
      have hrest : ∀ e2 ∈ rest, e2.2 < c0 := by
        intro e2 he2
        have hk : e2.1 ≠ k0 := by
          intro hk
          have hm : e2.1 ∈ keysA rest := by
            simpa [keysA] using List.mem_map_of_mem Prod.fst he2
          exact hnd1 (hk ▸ hm)
        exact hmax e2 (List.mem_cons_of_mem _ he2) hk
      have hle : maxValOf rest ≤ c0 :=
        maxValOf_le_of rest c0 (fun e2 he2 => Nat.le_of_lt (hrest e2 he2))
      constructor
      · simp only [maxValOf]
        omega
      · rw [keysWithVal_cons, if_pos rfl,
          keysWithVal_eq_nil rest c0 (fun e2 he2 => by have := hrest e2 he2; omega)]
        simp
    | tail _ hmem2 =>
      have hek : e.1 ≠ k0 := by
        intro hk
        have hm : k0 ∈ keysA rest := by
          simpa [keysA] using List.mem_map_of_mem Prod.fst hmem2
        exact hnd1 (hk ▸ hm)
      have helt : e.2 < c0 := hmax e (List.mem_cons_self _ _) hek
      obtain ⟨ih1, ih2⟩ := ih hmem2 hnd2
        (fun e2 he2 hk => hmax e2 (List.mem_cons_of_mem _ he2) hk)
      constructor
      · simp only [maxValOf]
        omega
      · rw [keysWithVal_cons, if_neg (by omega), ih2]
        simp

/-! ## Lemmas about `bump` and `tallyOf` -/

theorem lookupA_bump_self (t : List (String × Nat)) (k : String) :
    lookupA (bump t k) k = some ((lookupA t k).getD 0 + 1) := by
  induction t with
  | nil => simp [bump, lookupA]
  | cons e rest ih =>
    by_cases h : e.1 = k
    · simp [bump, lookupA, h]
    · simp [bump, lookupA, h, ih]

theorem lookupA_bump_ne (t : List (String × Nat)) (k k2 : String) (h : k2 ≠ k) :
    lookupA (bump t k) k2 = lookupA t k2 := by
  induction t with
  | nil =>
    have hne : ¬ k = k2 := fun hh => h hh.symm
    simp [bump, lookupA, hne]
  | cons e rest ih =>
    by_cases he : e.1 = k
    · have hne : ¬ k = k2 := fun hh => h hh.symm
      simp [bump, lookupA, he, hne]
    · simp [bump, lookupA, he, ih]

theorem keysA_bump (t : List (String × Nat)) (k : String) :
    keysA (bump t k) = if (lookupA t k).isSome then keysA t else keysA t ++ [k] := by
  induction t with
  | nil => simp [bump, lookupA, keysA]
  | cons e rest ih =>
    by_cases h : e.1 = k
    · simp [bump, lookupA, keysA, h]
    · have hs : bump (e :: rest) k = e :: bump rest k := by simp [bump, h]
      have hl : lookupA (e :: rest) k = lookupA rest k := by simp [lookupA, h]
      rw [hs, hl]
      simp only [keysA, List.map_cons]
      simp only [keysA] at ih
      rw [ih]
      by_cases h2 : (lookupA rest k).isSome <;> simp [h2]

theorem keysA_bump_nodup (t : List (String × Nat)) (k : String)
    (h : (keysA t).Nodup) : (keysA (bump t k)).Nodup := by
  rw [keysA_bump]
  by_cases hs : (lookupA t k).isSome
  · simpa [hs] using h
  · have hk : k ∉ keysA t := by
      rw [mem_keysA_iff_lookupA]
      simp_all
    simp [hs, List.nodup_append, h, hk]

theorem keysA_tallyOf_nodup (votes : List (String × String)) :
    (keysA (tallyOf votes)).Nodup := by
  have main : ∀ (vs : List (String × String)) (t0 : List (String × Nat)),
      (keysA t0).Nodup → (keysA (vs.foldl (fun t v => bump t v.2) t0)).Nodup := by
    intro vs
    induction vs with
    | nil => intro t0 h; exact h
    | cons v rest ih => intro t0 h; exact ih _ (keysA_bump_nodup _ _ h)
  exact main votes [] (by simp [keysA])

theorem lookupA_tallyAux (vs : List (String × String)) :
    ∀ (t0 : List (String × Nat)) (k : String),
    lookupA (vs.foldl (fun t v => bump t v.2) t0) k
      = match lookupA t0 k, (vs.map Prod.snd).count k with
        | some n, c => some (n + c)
        | none, 0 => none
        | none, c => some c := by
  induction vs with
  | nil =>
    intro t0 k
    cases h : lookupA t0 k <;> simp [h]
  | cons v rest ih =>
    intro t0 k
    simp only [List.foldl_cons, List.map_cons]
    rw [ih (bump t0 v.2) k]
    by_cases hv : v.2 = k
    · rw [hv, lookupA_bump_self]
      have hc : (k :: rest.map Prod.snd).count k = (rest.map Prod.snd).count k + 1 := by
        simp [List.count_cons]
      rw [hc]
      cases h : lookupA t0 k with
      | some n =>
        show some (n + 1 + (rest.map Prod.snd).count k)
          = some (n + ((rest.map Prod.snd).count k + 1))
        congr 1
        omega
      | none =>
        show some (0 + 1 + (rest.map Prod.snd).count k)
          = some ((rest.map Prod.snd).count k + 1)
        congr 1
        omega
    · have hne : k ≠ v.2 := fun hh => hv hh.symm
      rw [lookupA_bump_ne _ _ _ hne]
      have hc : (v.2 :: rest.map Prod.snd).count k = (rest.map Prod.snd).count k := by
        simp [List.count_cons, hv]
      rw [hc]

theorem lookupA_tallyOf (votes : List (String × String)) (k : String) :
    lookupA (tallyOf votes) k
      = if (votes.map Prod.snd).count k = 0 then none
        else some ((votes.map Prod.snd).count k) := by
  unfold tallyOf
  rw [lookupA_tallyAux votes [] k]
  cases hc : (votes.map Prod.snd).count k <;> simp [lookupA, hc]

theorem tallyOf_val_pos (votes : List (String × String)) :
    ∀ e ∈ tallyOf votes, 1 ≤ e.2 := by
  have main : ∀ (vs : List (String × String)) (t0 : List (String × Nat)),
      (∀ e ∈ t0, 1 ≤ e.2) → ∀ e ∈ vs.foldl (fun t v => bump t v.2) t0, 1 ≤ e.2 := by
    intro vs
    induction vs with
    | nil => intro t0 h; exact h
    | cons v rest ih =>
      intro t0 h
      refine ih _ ?_
      have hb : ∀ (t : List (String × Nat)) (k : String),
          (∀ e ∈ t, 1 ≤ e.2) → ∀ e ∈ bump t k, 1 ≤ e.2 := by
        intro t k
        induction t with
        | nil => intro _ e he; simp [bump] at he; simp [he]
        | cons g grest gih =>
          intro hg e he
          by_cases hgk : g.1 = k
          · simp only [bump, hgk, if_pos] at he
            rcases List.mem_cons.mp he with h2 | h2
            · simp [h2]
            · exact hg e (List.mem_cons_of_mem _ h2)
          · simp only [bump, hgk, ite_false] at he
            rcases List.mem_cons.mp he with h2 | h2
            · exact h2 ▸ hg g (List.mem_cons_self _ _)
            · exact gih (fun e2 he2 => hg e2 (List.mem_cons_of_mem _ he2)) e h2
      exact hb t0 v.2 h
  exact main votes [] (by simp)

/-! ## Lemmas about elimination and vote processing -/

theorem find?_markEliminated_ne (ps : List Player) (eid x : String) (h : x ≠ eid) :
    (markEliminated ps eid).find? (fun p => p.id == x)
      = ps.find? (fun p => p.id == x) := by
  induction ps with
  | nil => simp [markEliminated]
  | cons p rest ih =>
    have hxe : ¬ eid = x := fun hh => h hh.symm
    by_cases hp : p.id = eid
    · have hne : ¬ p.id = x := by rw [hp]; exact fun hh => h hh.symm
      simp [markEliminated, hp, List.find?_cons, hne, hxe, h]
    · by_cases hx : p.id = x
      · simp [markEliminated, hp, List.find?_cons, hx, h, hxe]
      · simp [markEliminated, hp, List.find?_cons, hx, ih, h, hxe]

theorem find?_markEliminated_self (ps : List Player) (eid : String) (p0 : Player)
    (h : ps.find? (fun p => p.id == eid) = some p0) :
    (markEliminated ps eid).find? (fun p => p.id == eid)
      = some { p0 with alive := false } := by
  induction ps with
  | nil => simp at h
  | cons p rest ih =>
    by_cases hp : p.id = eid
    · rw [List.find?_cons_of_pos _ (by simp [hp])] at h
      cases h
      simp [markEliminated, hp, List.find?_cons_of_pos]
    · rw [List.find?_cons_of_neg _ (by simp [hp])] at h
      simp [markEliminated, hp, List.find?_cons_of_neg, ih h]

theorem applyElimination_fields (d : Nat) (r : Room) :
    (applyElimination d r).roles = r.roles ∧
    (applyElimination d r).mode = r.mode ∧
    (applyElimination d r).votes = r.votes ∧
    (applyElimination d r).phase = r.phase ∧
    (applyElimination d r).hostId = r.hostId ∧
    (applyElimination d r).turnOrder = r.turnOrder ∧
    (applyElimination d r).roomCode = r.roomCode := by
  unfold applyElimination
  split
  · exact ⟨rfl, rfl, rfl, rfl, rfl, rfl, rfl⟩
  · split
    · exact ⟨rfl, rfl, rfl, rfl, rfl, rfl, rfl⟩
    · exact ⟨rfl, rfl, rfl, rfl, rfl, rfl, rfl⟩

theorem processVotesCore_fields (d : Nat) (r : Room) :
    (processVotesCore d r).roles = r.roles ∧
    (processVotesCore d r).mode = r.mode ∧
    (processVotesCore d r).votes = r.votes ∧
    (processVotesCore d r).hostId = r.hostId ∧
    (processVotesCore d r).roomCode = r.roomCode := by
  obtain ⟨h1, h2, h3, _, h5, _, h7⟩ := applyElimination_fields d r
  unfold processVotesCore
  split <;> exact ⟨h1, h2, h3, h5, h7⟩

theorem processVotesCore_phase (d : Nat) (r : Room) :
    (processVotesCore d r).phase = GamePhase.ended ∨
    (processVotesCore d r).phase = GamePhase.results := by
  unfold processVotesCore
  split
  · exact Or.inl rfl
  · exact Or.inr rfl

theorem castVoteCore_ok (d : Nat) (r : Room) (v t : String) (r2 : Room)
    (h : castVoteCore d r v t = .ok r2) :
    r.phase = GamePhase.voting ∧ isAliveId r v = true ∧ isAliveId r t = true ∧
    (if aliveCountOf r ≤ (setA r.votes v t).length then
       r2 = processVotesCore d { r with votes := setA r.votes v t }
     else r2 = { r with votes := setA r.votes v t }) := by
  unfold castVoteCore at h
  split at h
  · exact absurd h (by simp)
  · rename_i hph
    split at h
    · exact absurd h (by simp)
    · rename_i voter hv
      split at h
      · exact absurd h (by simp)
      · rename_i hva
        split at h
        · exact absurd h (by simp)
        · rename_i target ht
          split at h
          · exact absurd h (by simp)
          · rename_i hta
            have hph2 : r.phase = GamePhase.voting := not_not.mp hph
            have hva2 : voter.alive = true := by simpa using hva
            have hta2 : target.alive = true := by simpa using hta
            refine ⟨hph2, by simp [isAliveId, hv, hva2],
              by simp [isAliveId, ht, hta2], ?_⟩
            split at h
            · rename_i hth
              rw [if_pos (by simpa [aliveCountOf] using hth)]
              exact (Except.ok.inj h).symm
            · rename_i hth
              rw [if_neg (by simpa [aliveCountOf] using hth)]
              exact (Except.ok.inj h).symm

theorem castVoteCore_error (d : Nat) (r : Room) (v t : String)
    (h : ¬ (r.phase = GamePhase.voting ∧ isAliveId r v = true ∧ isAliveId r t = true)) :
    ∃ m, castVoteCore d r v t = .error m := by
  unfold castVoteCore
  split
  · exact ⟨_, rfl⟩
  · rename_i hph
    have hph2 : r.phase = GamePhase.voting := not_not.mp hph
    split
    · rename_i hv
      exact ⟨_, rfl⟩
    · rename_i voter hv
      split
      · exact ⟨_, rfl⟩
      · rename_i hva
        have hva2 : voter.alive = true := by simpa using hva
        split
        · exact ⟨_, rfl⟩
        · rename_i target ht
          split
          · exact ⟨_, rfl⟩
          · rename_i hta
            have hta2 : target.alive = true := by simpa using hta
            exact absurd ⟨hph2, by simp [isAliveId, hv, hva2],
              by simp [isAliveId, ht, hta2]⟩ h

/-! ## Lemmas about the start-game assignment -/

theorem lookupA_assignMap {α : Type} (ps : List Player) (special : String)
    (oddVal regVal : α) (k : String) :
    lookupA (assignMap ps special oddVal regVal) k
      = if k ∈ ps.map (fun p => p.id)
        then some (if k == special then oddVal else regVal) else none := by
  unfold assignMap
  have h := lookupA_foldl_setA ps (fun x => if x == special then oddVal else regVal) [] k
  simpa [lookupA] using h

theorem keysA_assignMap_nodup {α : Type} (ps : List Player) (special : String)
    (oddVal regVal : α) :
    (keysA (assignMap ps special oddVal regVal)).Nodup :=
  keysA_foldl_setA_nodup ps (fun x => if x == special then oddVal else regVal) []
    (by simp [keysA])

theorem mem_keysA_assignMap {α : Type} (ps : List Player) (special : String)
    (oddVal regVal : α) (k : String) :
    k ∈ keysA (assignMap ps special oddVal regVal) ↔ k ∈ ps.map (fun p => p.id) := by
  have h := mem_keysA_foldl_setA ps
    (fun x => if x == special then oddVal else regVal) [] k
  exact h.trans (by simp [keysA])

theorem assignMap_vals {α : Type} (ps : List Player) (special : String)
    (oddVal regVal : α) :
    ∀ e ∈ assignMap ps special oddVal regVal, e.2 = oddVal ∨ e.2 = regVal := by
  intro e he
  have h := val_of_mem_foldl_setA ps
    (fun x => if x == special then oddVal else regVal) [] (by simp) e he
  by_cases hs : e.1 == special
  · simp [hs] at h
    exact Or.inl h
  · simp [hs] at h
    exact Or.inr h

theorem assignMap_filter_odd {α : Type} [DecidableEq α] (ps : List Player)
    (special : String) (oddVal regVal : α) (hne : oddVal ≠ regVal)
    (hmem : special ∈ ps.map (fun p => p.id)) :
    ((assignMap ps special oddVal regVal).filter (fun e => e.2 == oddVal)).length = 1 := by
  have hcongr : ∀ e ∈ assignMap ps special oddVal regVal,
      (e.2 == oddVal) = (e.1 == special) := by
    intro e he
    have h := val_of_mem_foldl_setA ps
      (fun x => if x == special then oddVal else regVal) [] (by simp) e he
    by_cases hs : e.1 == special
    · simp [hs] at h
      simp [hs, h]
    · have hne2 : ¬ regVal = oddVal := fun hh => hne hh.symm
      simp [hs] at h
      simp [hs, h, hne2]
  rw [List.filter_congr hcongr]
  have hlen : ((assignMap ps special oddVal regVal).filter
      (fun e => e.1 == special)).length
        = List.count special (keysA (assignMap ps special oddVal regVal)) := by
    rw [List.count_eq_countP, keysA, List.countP_map,
      ← List.countP_eq_length_filter]
    rfl
  rw [hlen]
  exact List.count_eq_one_of_mem (keysA_assignMap_nodup ps special oddVal regVal)
    ((mem_keysA_assignMap ps special oddVal regVal special).mpr hmem)

theorem reviveAll_ids (ps : List Player) :
    (reviveAll ps).map (fun p => p.id) = ps.map (fun p => p.id) := by
  unfold reviveAll
  rw [List.map_map]
  rfl

theorem reviveAll_alive (ps : List Player) : ∀ p ∈ reviveAll ps, p.alive = true := by
  intro p hp
  unfold reviveAll at hp
  obtain ⟨q, _, rfl⟩ := List.mem_map.mp hp
  rfl

theorem specialPlayerIdOf_mem (rs : StartDraws) (room : Room)
    (h : 3 ≤ room.players.length) :
    specialPlayerIdOf rs room ∈ room.players.map (fun p => p.id) := by
  unfold specialPlayerIdOf
  have hp := shuffle_perm rs.special (room.players.map (fun p => p.id))
  have hne : shuffle rs.special (room.players.map (fun p => p.id)) ≠ [] := by
    intro hnil
    have hl := hp.length_eq
    rw [hnil] at hl
    simp at hl
    omega
  exact hp.subset (headD_mem _ "" hne)

/-! ## Equality of the win condition with its (amended) spec reading -/

theorem checkWinCondition_eq_atMostTwo (room : Room) :
    checkWinCondition room = winConditionSpecAtMostTwo room := by
  cases hm : room.mode <;>
    simp only [checkWinCondition, winConditionSpecAtMostTwo, hm, oddRoleOf,
      regularsWinLabelOf, oddWinLabelOf, aliveCountOf]

theorem getWinningPlayers_eq_spec (room : Room) (w : String) :
    getWinningPlayers room w = winningPlayersSpec room w := by
  unfold getWinningPlayers winningPlayersSpec
  by_cases h1 : w = "citizens"
  · subst h1
    rw [if_pos (show (("citizens" : String) == "citizens") = true from rfl)]
    congr 1
    refine List.filter_congr ?_
    intro e _
    rcases e with ⟨k, ro⟩
    cases ro <;> rfl
  · rw [if_neg (by simp [h1])]
    by_cases h2 : w = "infiltrator"
    · subst h2
      rw [if_pos (show (("infiltrator" : String) == "infiltrator") = true from rfl)]
      congr 1
      refine List.filter_congr ?_
      intro e _
      rcases e with ⟨k, ro⟩
      cases ro <;> rfl
    · rw [if_neg (by simp [h2])]
      by_cases h3 : w = "agents"
      · subst h3
        rw [if_pos (show (("agents" : String) == "agents") = true from rfl)]
        congr 1
        refine List.filter_congr ?_
        intro e _
        rcases e with ⟨k, ro⟩
        cases ro <;> rfl
      · rw [if_neg (by simp [h3])]
        by_cases h4 : w = "spy"
        · subst h4
          rw [if_pos (show (("spy" : String) == "spy") = true from rfl)]
          congr 1
          refine List.filter_congr ?_
          intro e _
          rcases e with ⟨k, ro⟩
          cases ro <;> rfl
        · rw [if_neg (by simp [h4])]
          symm
          rw [List.map_eq_nil_iff, List.filter_eq_nil_iff]
          intro e _
          rcases e with ⟨k, ro⟩
          cases ro <;> simp [sideLabelOfRole] <;>
            first
            | exact fun hh => h1 hh.symm
            | exact fun hh => h2 hh.symm
            | exact fun hh => h3 hh.symm
            | exact fun hh => h4 hh.symm

/-- Claim C1 (amended: the odd-one-out also wins when FEWER than 2 players
remain alive, i.e. the code tests "at most 2 alive", not "exactly 2"): the
win condition after each elimination agrees with the spec reading in which
"exactly 2 players remain alive" is weakened to "at most 2", and the
winning-player set is exactly the identifiers whose assigned role matches
the winning side label. -/
theorem claim_c1_win_condition (room : Room) :
    checkWinCondition room = winConditionSpecAtMostTwo room ∧
    ∀ w, getWinningPlayers room w = winningPlayersSpec room w :=
  ⟨checkWinCondition_eq_atMostTwo room, fun w => getWinningPlayers_eq_spec room w⟩

/-! ## Claim C9: view projection -/

/-- Claim C9: the view projection is a pure function of the room and viewer:
every field other than the two own-secret scalars equals the corresponding
room field, `myRole`/`myWord` hold exactly the viewer's own entries of the
`roles`/`words` maps (absent when not assigned), and projections for two
different viewers agree on every field except the own-role/own-word pair. -/
theorem claim_c9_view_projection (room : Room) (viewer v1 v2 : String) :
    (getClientRoom room viewer).roomCode = room.roomCode ∧
    (getClientRoom room viewer).hostId = room.hostId ∧
    (getClientRoom room viewer).players = room.players ∧
    (getClientRoom room viewer).mode = room.mode ∧
    (getClientRoom room viewer).phase = room.phase ∧
    (getClientRoom room viewer).turnOrder = room.turnOrder ∧
    (getClientRoom room viewer).currentTurnIndex = room.currentTurnIndex ∧
    (getClientRoom room viewer).turnStartTime = room.turnStartTime ∧
    (getClientRoom room viewer).turnDuration = room.turnDuration ∧
    (getClientRoom room viewer).votes = room.votes ∧
    (getClientRoom room viewer).eliminated = room.eliminated ∧
    (getClientRoom room viewer).lastEliminated = room.lastEliminated ∧
    (getClientRoom room viewer).round = room.round ∧
    (getClientRoom room viewer).winner = room.winner ∧
    (getClientRoom room viewer).winningPlayers = room.winningPlayers ∧
    (getClientRoom room viewer).myRole = lookupA room.roles viewer ∧
    (getClientRoom room viewer).myWord = lookupA room.words viewer ∧
    ((getClientRoom room v1).roomCode = (getClientRoom room v2).roomCode ∧
     (getClientRoom room v1).hostId = (getClientRoom room v2).hostId ∧
     (getClientRoom room v1).players = (getClientRoom room v2).players ∧
     (getClientRoom room v1).mode = (getClientRoom room v2).mode ∧
     (getClientRoom room v1).phase = (getClientRoom room v2).phase ∧
     (getClientRoom room v1).turnOrder = (getClientRoom room v2).turnOrder ∧
     (getClientRoom room v1).currentTurnIndex = (getClientRoom room v2).currentTurnIndex ∧
     (getClientRoom room v1).turnStartTime = (getClientRoom room v2).turnStartTime ∧
     (getClientRoom room v1).turnDuration = (getClientRoom room v2).turnDuration ∧
     (getClientRoom room v1).votes = (getClientRoom room v2).votes ∧
     (getClientRoom room v1).eliminated = (getClientRoom room v2).eliminated ∧
     (getClientRoom room v1).lastEliminated = (getClientRoom room v2).lastEliminated ∧
     (getClientRoom room v1).round = (getClientRoom room v2).round ∧
     (getClientRoom room v1).winner = (getClientRoom room v2).winner ∧
     (getClientRoom room v1).winningPlayers = (getClientRoom room v2).winningPlayers) :=
  ⟨rfl, rfl, rfl, rfl, rfl, rfl, rfl, rfl, rfl, rfl, rfl, rfl, rfl, rfl, rfl, rfl, rfl,
   rfl, rfl, rfl, rfl, rfl, rfl, rfl, rfl, rfl, rfl, rfl, rfl, rfl, rfl, rfl⟩

/-! ## Claim C4: turn advancement -/

/-- Claim C4: a turn advance (timer expiry or skip by the current speaker)
increments the index, transitions to voting (clearing votes, nulling
`turnStartTime`, disarming the timer) exactly when the advanced index
reaches the length of the alive-filtered order, and otherwise installs the
filtered order and re-arms the timer; a skip by anyone other than
`turnOrder[currentTurnIndex]`, or outside the speaking phase, errors. -/
theorem claim_c4_turn_advance (now : Nat) (room : Room) (pid : String) :
    ((advanceTurnCore now room).1.currentTurnIndex = room.currentTurnIndex + 1) ∧
    (room.phase = GamePhase.speaking →
      ((advanceTurnCore now room).1.phase = GamePhase.voting ↔
        (room.turnOrder.filter (fun id => isAliveId room id)).length
          ≤ room.currentTurnIndex + 1)) ∧
    (if (room.turnOrder.filter (fun id => isAliveId room id)).length
        ≤ room.currentTurnIndex + 1 then
       (advanceTurnCore now room).1.votes = [] ∧
       (advanceTurnCore now room).1.turnStartTime = none ∧
       (advanceTurnCore now room).2 = false ∧
       (advanceTurnCore now room).1.turnOrder = room.turnOrder
     else
       (advanceTurnCore now room).1.turnOrder
         = room.turnOrder.filter (fun id => isAliveId room id) ∧
       (advanceTurnCore now room).1.turnStartTime = some now ∧
       (advanceTurnCore now room).2 = true ∧
       (advanceTurnCore now room).1.phase = room.phase) ∧
    (room.phase ≠ GamePhase.speaking → ∃ m, skipTurnCore now room pid = .error m) ∧
    (room.turnOrder.get? room.currentTurnIndex ≠ some pid →
      ∃ m, skipTurnCore now room pid = .error m) ∧
    (room.phase = GamePhase.speaking →
      room.turnOrder.get? room.currentTurnIndex = some pid →
      skipTurnCore now room pid = .ok (advanceTurnCore now room)) := by
  refine ⟨?_, ?_, ?_, ?_, ?_, ?_⟩
  · unfold advanceTurnCore
    split <;> rfl
  · intro hsp
    unfold advanceTurnCore
    split
    · rename_i hc
      simpa using hc
    · rename_i hc
      simp [hsp, hc]
  · split
    · rename_i hc
      simp [advanceTurnCore, hc]
    · rename_i hc
      simp [advanceTurnCore, hc]
  · intro hph
    unfold skipTurnCore
    rw [if_pos hph]
    exact ⟨_, rfl⟩
  · intro hto
    unfold skipTurnCore
    by_cases hph : room.phase ≠ GamePhase.speaking
    · rw [if_pos hph]
      exact ⟨_, rfl⟩
    · rw [if_neg hph, if_pos hto]
      exact ⟨_, rfl⟩
  · intro hph hto
    unfold skipTurnCore
    have hto2 : room.turnOrder[room.currentTurnIndex]? = some pid := by
      simpa using hto
    rw [if_neg (by simp [hph]), if_neg (by simp [hto2])]

/-! ## Claim C8: castVote -/

theorem castVoteCore_ok_exists (d : Nat) (r : Room) (v t : String)
    (hph : r.phase = GamePhase.voting) (hv : isAliveId r v = true)
    (ht : isAliveId r t = true) :
    ∃ r2, castVoteCore d r v t = .ok r2 := by
  obtain ⟨voter, hfv, hva⟩ :
      ∃ p, r.players.find? (fun q => q.id == v) = some p ∧ p.alive = true := by
    unfold isAliveId at hv
    cases hfv : r.players.find? (fun q => q.id == v) with
    | none => rw [hfv] at hv; exact absurd hv (by simp)
    | some voter => rw [hfv] at hv; exact ⟨voter, rfl, hv⟩
  obtain ⟨target, hft, hta⟩ :
      ∃ p, r.players.find? (fun q => q.id == t) = some p ∧ p.alive = true := by
    unfold isAliveId at ht
    cases hft : r.players.find? (fun q => q.id == t) with
    | none => rw [hft] at ht; exact absurd ht (by simp)
    | some target => rw [hft] at ht; exact ⟨target, rfl, ht⟩
  unfold castVoteCore
  rw [if_neg (by simp [hph])]
  simp only [hfv, hft]
  rw [if_neg (by simp [hva]), if_neg (by simp [hta])]
  by_cases hth : (r.players.filter (fun p => p.alive)).length
      ≤ (setA r.votes v t).length
  · rw [if_pos hth]
    exact ⟨_, rfl⟩
  · rw [if_neg hth]
    exact ⟨_, rfl⟩

/-- Claim C8: castVote fails (with an error and no state change) unless the
room exists, the phase is voting, and both voter and target are alive; on
success it records or overwrites `votes[voterId] = targetId`, so a re-vote
is allowed, the last write wins, and each voter is counted once (vote keys
stay duplicate-free). -/
theorem claim_c8_cast_vote (d : Nat) (o : Option Room) (v t : String) :
    ((∃ m, castVoteTop d o v t = .error m) ↔
      ¬ ∃ r, o = some r ∧ r.phase = GamePhase.voting ∧
        isAliveId r v = true ∧ isAliveId r t = true) ∧
    (∀ r r2, o = some r → castVoteTop d o v t = .ok r2 →
      r2.votes = setA r.votes v t ∧
      lookupA r2.votes v = some t ∧
      (∀ v2, v2 ≠ v → lookupA r2.votes v2 = lookupA r.votes v2) ∧
      ((keysA r.votes).Nodup → (keysA r2.votes).Nodup)) := by
  constructor
  · cases o with
    | none =>
      constructor
      · rintro _ ⟨r, hr, _⟩
        cases hr
      · intro _
        exact ⟨_, rfl⟩
    | some r =>
      constructor
      · rintro ⟨m, hm⟩ ⟨r2, hr2, hcond⟩
        cases hr2
        obtain ⟨r3, hok⟩ := castVoteCore_ok_exists d r v t hcond.1 hcond.2.1 hcond.2.2
        rw [show castVoteTop d (some r) v t = castVoteCore d r v t from rfl, hok] at hm
        cases hm
      · intro hn
        obtain ⟨m, hm⟩ := castVoteCore_error d r v t
          (fun hc => hn ⟨r, rfl, hc⟩)
        exact ⟨m, hm⟩
  · intro r r2 hor hok
    cases hor
    have hok2 : castVoteCore d r v t = .ok r2 := hok
    obtain ⟨_, _, _, hif⟩ := castVoteCore_ok d r v t r2 hok2
    have hvotes : r2.votes = setA r.votes v t := by
      by_cases hth : aliveCountOf r ≤ (setA r.votes v t).length
      · rw [if_pos hth] at hif
        rw [hif]
        exact (processVotesCore_fields d _).2.2.1
      · rw [if_neg hth] at hif
        rw [hif]
    refine ⟨hvotes, ?_, ?_, ?_⟩
    · rw [hvotes]
      exact lookupA_setA_self _ _ _
    · intro v2 hv2
      rw [hvotes]
      exact lookupA_setA_ne _ _ _ _ hv2
    · intro hnd
      rw [hvotes]
      exact keysA_setA_nodup _ _ _ hnd

/-! ## Claim C10: name validation -/

/-- Claim C10 (amended): the create-room and join-room handlers reject a
name exactly when it is empty or whitespace-only (and, for join, when the
trimmed name is already taken in the room, case-insensitively).  The
20-character limit appears only in the frontend; these handlers have no
length check. -/
theorem claim_c10_name_validation (code hostId pid roomCode name : String)
    (o : Option Room) :
    ((∃ m, createRoomHandler code hostId name = .error m) ↔ trimJS name = "") ∧
    (∀ r, o = some r → r.phase = GamePhase.lobby → trimJS roomCode ≠ "" →
      ((∃ m, joinRoomHandler o pid roomCode name = .error m) ↔
        (trimJS name = "" ∨
          r.players.any (fun p => toLowerJS p.name == toLowerJS (trimJS name)) = true))) := by
  constructor
  · unfold createRoomHandler
    by_cases h : trimJS name = ""
    · rw [if_pos (by simp [h])]
      exact ⟨fun _ => h, fun _ => ⟨_, rfl⟩⟩
    · rw [if_neg (by simp [h])]
      constructor
      · rintro ⟨m, hm⟩
        cases hm
      · intro hh
        exact absurd hh h
  · intro r hor hlobby hcode
    subst hor
    unfold joinRoomHandler
    by_cases h : trimJS name = ""
    · rw [if_pos (by simp [h])]
      exact ⟨fun _ => Or.inl h, fun _ => ⟨_, rfl⟩⟩
    · rw [if_neg (by simp [h]), if_neg (by simp [hcode])]
      show (∃ m, joinRoomCore r pid (trimJS name) = .error m) ↔ _
      unfold joinRoomCore
      rw [if_neg (by simp [hlobby])]
      by_cases hex : r.players.any
          (fun p => toLowerJS p.name == toLowerJS (trimJS name)) = true
      · rw [if_pos hex]
        exact ⟨fun _ => Or.inr hex, fun _ => ⟨_, rfl⟩⟩
      · rw [if_neg hex]
        constructor
        · rintro ⟨m, hm⟩
          cases hm
        · rintro (hh | hh)
          · exact absurd hh h
          · exact absurd hh hex

/-- Counterexample to claim C10 as stated: a 21-character name is accepted
by both the create-room and join-room handlers, though the claim says any
name longer than 20 characters is rejected. -/
theorem claim_c10_counterexample :
    20 < longName.length ∧
    (createRoomHandler "XXXXX" "h1" longName).isOk = true ∧
    (joinRoomHandler (some (createRoom "XXXXX" "h1" "host")) "p2" "XXXXX"
      longName).isOk = true := by
  refine ⟨by decide, by decide, by decide⟩

/-! ## Claim C2: startGame -/

/-- Claim C2: a start with at least 3 players sets phase speaking, round 1,
clears the per-game fields, revives all players, picks one special player
(any player is picked for a suitable draw; the role maps assign the odd role
to exactly one identifier), assigns words per mode, installs a shuffled
permutation of all player identifiers as the turn order with index 0 and the
timer anchor set; a start with fewer than 3 players fails, as does a start
by a non-host caller. -/
theorem claim_c2_start_game :
    (∀ (ds : WordDataset) (rs : StartDraws) (now : Nat) (room : Room)
       (mode : Mode) (r2 : Room),
      startGameCore ds rs now room mode = .ok r2 →
      3 ≤ room.players.length ∧
      r2.phase = GamePhase.speaking ∧ r2.round = 1 ∧ r2.mode = mode ∧
      r2.votes = [] ∧ r2.eliminated = [] ∧ r2.lastEliminated = none ∧
      r2.winner = none ∧ r2.winningPlayers = [] ∧
      r2.currentTurnIndex = 0 ∧ r2.turnStartTime = some now ∧
      (∀ p ∈ r2.players, p.alive = true) ∧
      r2.players.map (fun p => p.id) = room.players.map (fun p => p.id) ∧
      r2.turnOrder.Perm (room.players.map (fun p => p.id)) ∧
      specialPlayerIdOf rs room ∈ room.players.map (fun p => p.id) ∧
      (r2.roles.filter (fun e => e.2 == oddRoleOf mode)).length = 1 ∧
      lookupA r2.roles (specialPlayerIdOf rs room) = some (oddRoleOf mode) ∧
      (∀ k ∈ room.players.map (fun p => p.id), k ≠ specialPlayerIdOf rs room →
        lookupA r2.roles k = some (regularRoleOf mode)) ∧
      (mode = Mode.infiltrator →
        ∃ w, getRandomWord ds rs.w1 rs.w2 = some w ∧
          lookupA r2.words (specialPlayerIdOf rs room) = some none ∧
          (∀ k ∈ room.players.map (fun p => p.id), k ≠ specialPlayerIdOf rs room →
            lookupA r2.words k = some (some w))) ∧
      (mode = Mode.spy →
        ∃ mw sw, getWordPair ds rs.w1 rs.w2 rs.w3 = some (mw, sw) ∧
          lookupA r2.words (specialPlayerIdOf rs room) = some (some sw) ∧
          (∀ k ∈ room.players.map (fun p => p.id), k ≠ specialPlayerIdOf rs room →
            lookupA r2.words k = some (some mw)))) ∧
    (∀ ds rs now room mode, room.players.length < 3 →
      ∃ m, startGameCore ds rs now room mode = .error m) ∧
    (∀ ds rs now (o : Option Room) caller mode r,
      o = some r → r.hostId ≠ caller →
      ∃ m, startGameHandler ds rs now o caller mode = .error m) ∧
    (∀ (room : Room) (k : Nat) (hk : k < (room.players.map (fun p => p.id)).length),
      ∃ rs : StartDraws,
        specialPlayerIdOf rs room = (room.players.map (fun p => p.id)).get ⟨k, hk⟩) := by
  refine ⟨?_, ?_, ?_, ?_⟩
  · intro ds rs now room mode r2 hok
    unfold startGameCore at hok
    split at hok
    · cases hok
    · rename_i hlt
      have hge : 3 ≤ room.players.length := by omega
      split at hok
      · split at hok
        · cases hok
        · rename_i w hw
          cases Except.ok.inj hok
          have hmem := specialPlayerIdOf_mem rs room hge
          have hmem2 : specialPlayerIdOf rs room
              ∈ (reviveAll room.players).map (fun p => p.id) := by
            rw [reviveAll_ids]
            exact hmem
          refine ⟨hge, rfl, rfl, rfl, rfl, rfl, rfl, rfl, rfl, rfl, rfl,
            reviveAll_alive _, reviveAll_ids _, shuffle_perm _ _, hmem, ?_, ?_, ?_, ?_, ?_⟩
          · exact assignMap_filter_odd _ _ _ _ (by decide) hmem2
          · rw [lookupA_assignMap, reviveAll_ids, if_pos hmem]
            simp [oddRoleOf]
          · intro k hk hkne
            rw [lookupA_assignMap, reviveAll_ids, if_pos hk]
            simp [regularRoleOf, hkne]
          · intro _
            refine ⟨w, hw, ?_, ?_⟩
            · rw [lookupA_assignMap, reviveAll_ids, if_pos hmem]
              simp
            · intro k hk hkne
              rw [lookupA_assignMap, reviveAll_ids, if_pos hk]
              simp [hkne]
          · intro hsp
            exact absurd hsp (by decide)
      · split at hok
        · cases hok
        · rename_i pair hw
          cases Except.ok.inj hok
          have hmem := specialPlayerIdOf_mem rs room hge
          have hmem2 : specialPlayerIdOf rs room
              ∈ (reviveAll room.players).map (fun p => p.id) := by
            rw [reviveAll_ids]
            exact hmem
          refine ⟨hge, rfl, rfl, rfl, rfl, rfl, rfl, rfl, rfl, rfl, rfl,
            reviveAll_alive _, reviveAll_ids _, shuffle_perm _ _, hmem, ?_, ?_, ?_, ?_, ?_⟩
          · exact assignMap_filter_odd _ _ _ _ (by decide) hmem2
          · rw [lookupA_assignMap, reviveAll_ids, if_pos hmem]
            simp [oddRoleOf]
          · intro k hk hkne
            rw [lookupA_assignMap, reviveAll_ids, if_pos hk]
            simp [regularRoleOf, hkne]
          · intro hsp
            exact absurd hsp (by decide)
          · intro _
            refine ⟨pair.1, pair.2, by rw [hw], ?_, ?_⟩
            · rw [lookupA_assignMap, reviveAll_ids, if_pos hmem]
              simp
            · intro k hk hkne
              rw [lookupA_assignMap, reviveAll_ids, if_pos hk]
              simp [hkne]
  · intro ds rs now room mode hlt
    unfold startGameCore
    rw [if_pos hlt]
    exact ⟨_, rfl⟩
  · intro ds rs now o caller mode r hor hne
    subst hor
    show ∃ m, (if r.hostId ≠ caller then Except.error "Only host can start"
      else startGameCore ds rs now r mode) = .error m
    rw [if_pos hne]
    exact ⟨_, rfl⟩
  · intro room k hk
    refine ⟨⟨pickDraws k, fun m => m, 0, 0, 0⟩, ?_⟩
    unfold specialPlayerIdOf
    exact shuffle_pick_head (room.players.map (fun p => p.id)) "" k hk

/-! ## Claim C3: vote tally -/

theorem processVotesCore_elim_fields (d : Nat) (r : Room) :
    (processVotesCore d r).eliminated = (applyElimination d r).eliminated ∧
    (processVotesCore d r).lastEliminated = (applyElimination d r).lastEliminated ∧
    (processVotesCore d r).players = (applyElimination d r).players := by
  unfold processVotesCore
  split <;> exact ⟨rfl, rfl, rfl⟩

/-- Claim C3 (amended: the tally counts votes per target over ALL recorded
votes, including votes cast by players who have since disconnected — there
is no alive filter on voters): the tally counts votes per target, selects
the candidates holding the maximum count, picks the draw-indexed candidate
among ties (every tied candidate is picked by some draw), and when the
distribution has a single strict maximum whose holder is still a player,
every draw eliminates exactly that player: marked not alive, appended to
`eliminated`, and set as `lastEliminated`. -/
theorem claim_c3_tally :
    (∀ (votes : List (String × String)) (k : String),
       lookupA (tallyOf votes) k
         = if (votes.map Prod.snd).count k = 0 then none
           else some ((votes.map Prod.snd).count k)) ∧
    (∀ t : List (String × Nat),
       maxCandidates t = (maxValOf t, keysWithVal t (maxValOf t))) ∧
    (∀ (l : List String) (c : String), c ∈ l → ∃ draw, chooseD draw l = some c) ∧
    (∀ (draw : Nat) (r : Room) (k0 : String) (c0 : Nat) (p0 : Player),
       (k0, c0) ∈ tallyOf r.votes →
       (∀ e ∈ tallyOf r.votes, e.1 ≠ k0 → e.2 < c0) →
       r.players.find? (fun p => p.id == k0) = some p0 →
       (processVotesCore draw r).eliminated = r.eliminated ++ [k0] ∧
       (processVotesCore draw r).lastEliminated = some k0 ∧
       isAliveId { r with players := (processVotesCore draw r).players } k0 = false) := by
  refine ⟨lookupA_tallyOf, maxCandidates_eq, ?_, ?_⟩
  · intro l c hc
    obtain ⟨⟨i, hi⟩, hg⟩ := List.mem_iff_get.mp hc
    refine ⟨i, ?_⟩
    unfold chooseD
    rw [Nat.mod_eq_of_lt hi]
    rw [List.get?_eq_getElem?, List.getElem?_eq_some_iff]
    exact ⟨hi, hg⟩
  · intro draw r k0 c0 p0 hmem hstrict hfind
    obtain ⟨hmax, hkeys⟩ := keysWithVal_single (tallyOf r.votes) k0 c0 hmem
      (keysA_tallyOf_nodup r.votes) hstrict
    have hmc : maxCandidates (tallyOf r.votes) = (c0, [k0]) := by
      rw [maxCandidates_eq, hmax, hkeys]
    have happ : applyElimination draw r
        = { r with
            players := markEliminated r.players k0
            eliminated := r.eliminated ++ [k0]
            lastEliminated := some k0 } := by
      unfold applyElimination
      rw [hmc]
      have hch : chooseD draw [k0] = some k0 := by
        simp [chooseD, Nat.mod_one]
      rw [hch]
      simp only [hfind]
    obtain ⟨he, hl, hp⟩ := processVotesCore_elim_fields draw r
    refine ⟨by rw [he, happ], by rw [hl, happ], ?_⟩
    rw [isAliveId]
    simp only [hp, happ]
    rw [find?_markEliminated_self r.players k0 p0 hfind]

/-! ## Per-operation facts used by the system invariants -/

theorem mem_setA_cases {α : Type} (m : List (String × α)) (k : String) (v : α) :
    ∀ e ∈ setA m k v, e ∈ m ∨ e.1 = k := by
  induction m with
  | nil => simp [setA]
  | cons g rest ih =>
    intro e he
    by_cases hg : g.1 = k
    · simp only [setA, hg, if_pos] at he
      rcases List.mem_cons.mp he with h | h
      · right
        rw [h]
      · exact Or.inl (List.mem_cons_of_mem _ h)
    · simp only [setA, hg, ite_false] at he
      rcases List.mem_cons.mp he with h | h
      · exact Or.inl (h ▸ List.mem_cons_self _ _)
      · rcases ih e h with h2 | h2
        · exact Or.inl (List.mem_cons_of_mem _ h2)
        · exact Or.inr h2

theorem find?_filter_ne (ps : List Player) (pid x : String) (h : x ≠ pid) :
    (ps.filter (fun p => !(p.id == pid))).find? (fun p => p.id == x)
      = ps.find? (fun p => p.id == x) := by
  induction ps with
  | nil => simp
  | cons p rest ih =>
    have hpx : ¬ pid = x := fun hh => h hh.symm
    have hxp : ¬ x = pid := h
    by_cases hp : p.id = pid
    · have hne : ¬ p.id = x := by rw [hp]; exact fun hh => h hh.symm
      simp [List.filter_cons, hp, List.find?_cons, hne, ih, hpx, hxp]
    · by_cases hx : p.id = x
      · simp [List.filter_cons, hp, List.find?_cons, hx, hpx, hxp]
      · simp [List.filter_cons, hp, List.find?_cons, hx, ih, hpx, hxp]

theorem find?_filter_self (ps : List Player) (pid : String) :
    (ps.filter (fun p => !(p.id == pid))).find? (fun p => p.id == pid) = none := by
  rw [List.find?_eq_none]
  intro p hp
  have := List.of_mem_filter hp
  simp at this
  simp [this]

theorem isAliveId_spec (r : Room) (x : String) (p : Player)
    (hf : r.players.find? (fun q => q.id == x) = some p)
    (ha : isAliveId r x = true) : p.alive = true := by
  rw [isAliveId, hf] at ha
  exact ha

theorem advanceTurnCore_roles (now : Nat) (r : Room) :
    (advanceTurnCore now r).1.roles = r.roles ∧
    (advanceTurnCore now r).1.mode = r.mode ∧
    (advanceTurnCore now r).1.players = r.players := by
  unfold advanceTurnCore
  split <;> exact ⟨rfl, rfl, rfl⟩

theorem advanceTurnCore_phase_votes (now : Nat) (r : Room) :
    ((advanceTurnCore now r).1.phase = GamePhase.voting ∧
      (advanceTurnCore now r).1.votes = []) ∨
    ((advanceTurnCore now r).1.phase = r.phase ∧
      (advanceTurnCore now r).1.votes = r.votes) := by
  unfold advanceTurnCore
  split
  · exact Or.inl ⟨rfl, rfl⟩
  · exact Or.inr ⟨rfl, rfl⟩

theorem advanceTurnCore_armed_phase (now : Nat) (r : Room)
    (h : (advanceTurnCore now r).2 = true) :
    (advanceTurnCore now r).1.phase = r.phase := by
  revert h
  unfold advanceTurnCore
  split
  · intro h
    cases h
  · intro _
    rfl

theorem skipTurnCore_ok (now : Nat) (r : Room) (pid : String) (r2 : Room)
    (armed : Bool) (h : skipTurnCore now r pid = .ok (r2, armed)) :
    r.phase = GamePhase.speaking ∧ advanceTurnCore now r = (r2, armed) := by
  unfold skipTurnCore at h
  split at h
  · cases h
  · split at h
    · cases h
    · rename_i h1 _
      exact ⟨not_not.mp h1, Except.ok.inj h⟩

theorem joinRoomCore_ok (r : Room) (pid pname : String) (r2 : Room)
    (h : joinRoomCore r pid pname = .ok r2) :
    r.phase = GamePhase.lobby ∧ r2.phase = GamePhase.lobby ∧
    r2.votes = r.votes ∧ r2.roles = r.roles ∧ r2.mode = r.mode := by
  unfold joinRoomCore at h
  split at h
  · cases h
  · split at h
    · cases h
    · rename_i h1 _
      cases Except.ok.inj h
      exact ⟨not_not.mp h1, not_not.mp h1, rfl, rfl, rfl⟩

theorem removePlayerCore_some (r : Room) (pid : String) (r2 : Room)
    (h : removePlayerCore r pid = some r2) :
    r2.phase = r.phase ∧ r2.votes = r.votes ∧ r2.roles = r.roles ∧
    r2.mode = r.mode ∧ r2.eliminated = r.eliminated ∧
    r2.lastEliminated = r.lastEliminated ∧
    r2.players = r.players.filter (fun p => !(p.id == pid)) := by
  unfold removePlayerCore at h
  split at h
  · cases h
  · rename_i q rest heq
    cases Option.some.inj h
    exact ⟨rfl, rfl, rfl, rfl, rfl, rfl, heq.symm⟩

theorem startNextRoundCore_fields (od : Nat → Nat) (now : Nat) (r : Room) :
    (startNextRoundCore od now r).phase = GamePhase.speaking ∧
    (startNextRoundCore od now r).votes = [] ∧
    (startNextRoundCore od now r).roles = r.roles ∧
    (startNextRoundCore od now r).mode = r.mode :=
  ⟨rfl, rfl, rfl, rfl⟩

theorem resetGameCore_fields (r : Room) :
    (resetGameCore r).phase = GamePhase.lobby ∧ (resetGameCore r).votes = [] ∧
    (resetGameCore r).roles = [] :=
  ⟨rfl, rfl, rfl⟩

theorem startGameCore_ok_inv (ds : WordDataset) (rs : StartDraws) (now : Nat)
    (room : Room) (mode : Mode) (r2 : Room)
    (h : startGameCore ds rs now room mode = .ok r2) :
    r2.phase = GamePhase.speaking ∧ r2.votes = [] ∧ r2.mode = mode ∧
    (r2.roles.filter (fun e => e.2 == oddRoleOf mode)).length = 1 ∧
    (∀ e ∈ r2.roles, e.2 = oddRoleOf mode ∨ e.2 = regularRoleOf mode) := by
  unfold startGameCore at h
  split at h
  · cases h
  · rename_i hlt
    have hge : 3 ≤ room.players.length := by omega
    have hmem2 : specialPlayerIdOf rs room
        ∈ (reviveAll room.players).map (fun p => p.id) := by
      rw [reviveAll_ids]
      exact specialPlayerIdOf_mem rs room hge
    split at h
    · split at h
      · cases h
      · cases Except.ok.inj h
        exact ⟨rfl, rfl, rfl,
          assignMap_filter_odd _ _ _ _ (by decide) hmem2,
          fun e he => assignMap_vals _ _ _ _ e he⟩
    · split at h
      · cases h
      · cases Except.ok.inj h
        exact ⟨rfl, rfl, rfl,
          assignMap_filter_odd _ _ _ _ (by decide) hmem2,
          fun e he => assignMap_vals _ _ _ _ e he⟩

theorem sysInv_init (code hostId hostName : String) :
    SysInv (initSys code hostId hostName) := by
  constructor
  · intro r hr
    cases Option.some.inj hr
    exact ⟨by simp [createRoom, keysA], by intro h; simp [createRoom] at h⟩
  · intro ht
    cases ht

theorem sysInv_step (ds : WordDataset) (s s2 : Sys) (hinv : SysInv s)
    (hst : Step ds s s2) : SysInv s2 := by
  obtain ⟨hvotes, htimer⟩ := hinv
  cases hst with
  | join r r2 pid pname hr hok =>
    obtain ⟨hlob, hlob2, hv, _, _⟩ := joinRoomCore_ok r pid pname r2 hok
    refine ⟨?_, ?_⟩
    · intro r3 hr3
      cases Option.some.inj hr3
      obtain ⟨hnd, _⟩ := hvotes r hr
      exact ⟨by rw [hv]; exact hnd, by intro hph; rw [hlob2] at hph; cases hph⟩
    · intro ht
      obtain ⟨r4, hr4, hsp⟩ := htimer ht
      rw [hr] at hr4
      cases Option.some.inj hr4
      rw [hlob] at hsp
      cases hsp
  | start r r2 caller mode rs now hr hhost hok =>
    obtain ⟨hsp, hv, _, _, _⟩ := startGameCore_ok_inv ds rs now r mode r2 hok
    refine ⟨?_, ?_⟩
    · intro r3 hr3
      cases Option.some.inj hr3
      exact ⟨by rw [hv]; simp [keysA], fun hph => by rw [hv]; intro e he; cases he⟩
    · intro _
      exact ⟨r2, rfl, hsp⟩
  | skip r r2 pid now armed hr hok =>
    obtain ⟨hsp, hadv⟩ := skipTurnCore_ok now r pid r2 armed hok
    obtain ⟨hnd, _⟩ := hvotes r hr
    refine ⟨?_, ?_⟩
    · intro r3 hr3
      cases Option.some.inj hr3
      rcases advanceTurnCore_phase_votes now r with ⟨hph, hvv⟩ | ⟨hph, hvv⟩ <;>
        rw [hadv] at hph hvv
      · refine ⟨by rw [hvv]; simp [keysA], fun _ => ?_⟩
        rw [hvv]
        intro e he
        cases he
      · refine ⟨by rw [hvv]; exact hnd, fun hph2 => ?_⟩
        rw [hph, hsp] at hph2
        cases hph2
    · intro ht
      have harm : (advanceTurnCore now r).2 = true := by rw [hadv]; exact ht
      have hph := advanceTurnCore_armed_phase now r harm
      rw [hadv] at hph
      exact ⟨r2, rfl, hph.trans hsp⟩
  | timerFire r r2 now armed ht hr hadv =>
    obtain ⟨r4, hr4, hsp⟩ := htimer ht
    rw [hr] at hr4
    cases Option.some.inj hr4
    obtain ⟨hnd, _⟩ := hvotes r hr
    refine ⟨?_, ?_⟩
    · intro r3 hr3
      cases Option.some.inj hr3
      rcases advanceTurnCore_phase_votes now r with ⟨hph, hvv⟩ | ⟨hph, hvv⟩ <;>
        rw [hadv] at hph hvv
      · refine ⟨by rw [hvv]; simp [keysA], fun _ => ?_⟩
        rw [hvv]
        intro e he
        cases he
      · refine ⟨by rw [hvv]; exact hnd, fun hph2 => ?_⟩
        rw [hph, hsp] at hph2
        cases hph2
    · intro harm
      have harm2 : (advanceTurnCore now r).2 = true := by rw [hadv]; exact harm
      have hph := advanceTurnCore_armed_phase now r harm2
      rw [hadv] at hph
      exact ⟨r2, rfl, hph.trans hsp⟩
  | vote r r2 voter target draw hr hok =>
    obtain ⟨hph, hav, hat, hif⟩ := castVoteCore_ok draw r voter target r2 hok
    obtain ⟨hnd, hal⟩ := hvotes r hr
    have hnd2 : (keysA (setA r.votes voter target)).Nodup :=
      keysA_setA_nodup _ _ _ hnd
    refine ⟨?_, ?_⟩
    · intro r3 hr3
      cases Option.some.inj hr3
      by_cases hth : aliveCountOf r ≤ (setA r.votes voter target).length
      · rw [if_pos hth] at hif
        subst hif
        have hpv := (processVotesCore_fields draw
          { r with votes := setA r.votes voter target }).2.2.1
        refine ⟨by rw [hpv]; exact hnd2, fun hph2 => ?_⟩
        rcases processVotesCore_phase draw { r with votes := setA r.votes voter target }
          with he | he <;> rw [hph2] at he <;> cases he
      · rw [if_neg hth] at hif
        subst hif
        refine ⟨hnd2, fun _ => ?_⟩
        intro e he p hp
        rcases mem_setA_cases r.votes voter target e he with hm | hk
        · exact hal hph e hm p hp
        · rw [hk] at hp
          exact isAliveId_spec r voter p hp hav
    · intro ht2
      by_cases hend : r2.phase = GamePhase.ended
      · rw [if_pos hend] at ht2
        cases ht2
      · rw [if_neg hend] at ht2
        obtain ⟨r4, hr4, hsp⟩ := htimer ht2
        rw [hr] at hr4
        cases Option.some.inj hr4
        rw [hph] at hsp
        cases hsp
  | removeKeep r r2 pid hr hrem =>
    obtain ⟨hph, hv, _, _, _, _, hps⟩ := removePlayerCore_some r pid r2 hrem
    obtain ⟨hnd, hal⟩ := hvotes r hr
    refine ⟨?_, ?_⟩
    · intro r3 hr3
      cases Option.some.inj hr3
      refine ⟨hv ▸ hnd, fun hph2 e he p hp => ?_⟩
      rw [hv] at he
      rw [hps] at hp
      by_cases hk : e.1 = pid
      · rw [hk, find?_filter_self] at hp
        cases hp
      · rw [find?_filter_ne r.players pid e.1 hk] at hp
        exact hal (hph ▸ hph2) e he p hp
    · intro ht
      obtain ⟨r4, hr4, hsp⟩ := htimer ht
      rw [hr] at hr4
      cases Option.some.inj hr4
      exact ⟨r2, rfl, hph.trans hsp⟩
  | removeLast r pid hr hrem =>
    refine ⟨?_, ?_⟩
    · intro r3 hr3
      cases hr3
    · intro ht
      cases ht
  | reset r caller hr hhost =>
    refine ⟨?_, ?_⟩
    · intro r3 hr3
      cases Option.some.inj hr3
      exact ⟨by simp [resetGameCore, keysA], by intro h; simp [resetGameCore] at h⟩
    · intro ht
      cases ht
  | nextRound r n od now hp hr =>
    refine ⟨?_, ?_⟩
    · intro r3 hr3
      cases Option.some.inj hr3
      exact ⟨by simp [startNextRoundCore, keysA],
        by intro h; simp [startNextRoundCore] at h⟩
    · intro _
      exact ⟨_, rfl, rfl⟩
  | nextRoundGone n hp hr =>
    refine ⟨?_, ?_⟩
    · intro r3 hr3
      cases hr3
    · intro ht
      obtain ⟨r4, hr4, _⟩ := htimer ht
      rw [hr] at hr4
      cases hr4

theorem sysInv_reachable (ds : WordDataset) (code hostId hostName : String)
    (s : Sys) (h : Reachable ds (initSys code hostId hostName) s) : SysInv s := by
  induction h with
  | refl => exact sysInv_init code hostId hostName
  | tail _ hstep ih => exact sysInv_step ds _ _ ih hstep

/-! ## Claim C5: vote-count bound and tally trigger -/

theorem presentVoteKeys_le (r : Room) (hwf : VotesWF r)
    (hph : r.phase = GamePhase.voting) :
    (presentVoteKeys r).length ≤ aliveCountOf r := by
  obtain ⟨hnd, hal⟩ := hwf
  have hal2 := hal hph
  have hsub : presentVoteKeys r ⊆ aliveIdsOf r := by
    intro k hk
    unfold presentVoteKeys at hk
    have hk1 := List.of_mem_filter hk
    have hk2 := List.mem_of_mem_filter hk
    obtain ⟨e, he, hke⟩ : ∃ e ∈ r.votes, e.1 = k := by
      unfold voteKeys at hk2
      obtain ⟨e, he, hke⟩ := List.mem_map.mp hk2
      exact ⟨e, he, hke⟩
    obtain ⟨p, hp⟩ := Option.isSome_iff_exists.mp hk1
    have halive := hal2 e he p (by rw [hke]; exact hp)
    have hpmem := List.mem_of_find?_eq_some hp
    have hpid : (p.id == k) = true := by simpa using List.find?_some hp
    unfold aliveIdsOf
    exact List.mem_map.mpr ⟨p,
      List.mem_filter.mpr ⟨hpmem, by simp [halive]⟩, by simpa using hpid⟩
  have hndp : (presentVoteKeys r).Nodup := by
    unfold presentVoteKeys
    exact List.Nodup.filter _ (show (voteKeys r).Nodup from hnd)
  have hle := (List.subperm_of_subset hndp hsub).length_le
  calc (presentVoteKeys r).length ≤ (aliveIdsOf r).length := hle
    _ = aliveCountOf r := by simp [aliveIdsOf, aliveCountOf]

/-- Claim C5 (amended: the unrestricted bound fails — a vote from a player
who has since disconnected is neither deleted nor re-checked — so the bound
holds for votes of currently-present players during the voting phase):
in every reachable voting-phase state, the number of recorded votes from
currently-present players is at most the number of alive players; a
successful castVote runs the tally (leaving the voting phase, hence at most
once) exactly when the updated total vote count reaches the alive count;
and player removal never runs the tally (it changes neither phase,
eliminated, votes, nor lastEliminated). -/
theorem claim_c5_votes_invariant :
    (∀ (ds : WordDataset) (code hostId hostName : String) (s : Sys) (r : Room),
      Reachable ds (initSys code hostId hostName) s →
      s.room = some r → r.phase = GamePhase.voting →
      (presentVoteKeys r).length ≤ aliveCountOf r) ∧
    (∀ (d : Nat) (r : Room) (v t : String) (r2 : Room),
      castVoteCore d r v t = .ok r2 →
      (r2.phase ≠ GamePhase.voting ↔ aliveCountOf r ≤ (setA r.votes v t).length)) ∧
    (∀ (r : Room) (pid : String) (r2 : Room), removePlayerCore r pid = some r2 →
      r2.phase = r.phase ∧ r2.eliminated = r.eliminated ∧ r2.votes = r.votes ∧
      r2.lastEliminated = r.lastEliminated) := by
  refine ⟨?_, ?_, ?_⟩
  · intro ds code hostId hostName s r hreach hr hph
    have hinv := sysInv_reachable ds code hostId hostName s hreach
    exact presentVoteKeys_le r (hinv.1 r hr) hph
  · intro d r v t r2 hok
    obtain ⟨hph, _, _, hif⟩ := castVoteCore_ok d r v t r2 hok
    constructor
    · intro hne
      by_contra hth
      rw [if_neg hth] at hif
      subst hif
      exact hne hph
    · intro hth
      rw [if_pos hth] at hif
      subst hif
      intro heq
      rcases processVotesCore_phase d { r with votes := setA r.votes v t } with he | he <;>
        rw [heq] at he <;> cases he
  · intro r pid r2 hrem
    obtain ⟨h1, h2, _, _, h5, h6, _⟩ := removePlayerCore_some r pid r2 hrem
    exact ⟨h1, h5, h2, h6⟩

theorem goodRoles_of_eq (r r2 : Room) (h1 : r2.roles = r.roles)
    (h2 : r2.mode = r.mode) (hg : GoodRoles r) : GoodRoles r2 := by
  obtain ⟨g1, g2⟩ := hg
  constructor
  · rw [h1, h2]
    exact g1
  · rw [h1, h2]
    exact g2

theorem inGame_goodRoles (ds : WordDataset) (s : Sys) (h : InGame ds s) :
    ∀ r, s.room = some r → GoodRoles r := by
  induction h with
  | start s0 r r2 caller mode rs now hr hhost hok =>
    intro r3 hr3
    cases Option.some.inj hr3
    obtain ⟨_, _, hmode, hcount, hvals⟩ := startGameCore_ok_inv ds rs now r mode r2 hok
    constructor
    · rw [hmode]
      exact hcount
    · rw [hmode]
      exact hvals
  | step s0 s2 r2 hin hstep hr2 hph ih =>
    intro r3 hr3
    rw [hr2] at hr3
    cases Option.some.inj hr3
    cases hstep with
    | join r r4 pid pname hr hok =>
      obtain ⟨_, _, _, hroles, hmode⟩ := joinRoomCore_ok r pid pname r4 hok
      cases Option.some.inj hr2
      exact goodRoles_of_eq r _ hroles hmode (ih r hr)
    | start r r4 caller mode rs now hr hhost hok =>
      obtain ⟨_, _, hmode, hcount, hvals⟩ := startGameCore_ok_inv ds rs now r mode r4 hok
      cases Option.some.inj hr2
      exact ⟨by rw [hmode]; exact hcount, by rw [hmode]; exact hvals⟩
    | skip r r4 pid now armed hr hok =>
      obtain ⟨_, hadv⟩ := skipTurnCore_ok now r pid r4 armed hok
      obtain ⟨hroles, hmode, _⟩ := advanceTurnCore_roles now r
      rw [hadv] at hroles hmode
      cases Option.some.inj hr2
      exact goodRoles_of_eq r _ hroles hmode (ih r hr)
    | timerFire r r4 now armed ht hr hadv =>
      obtain ⟨hroles, hmode, _⟩ := advanceTurnCore_roles now r
      rw [hadv] at hroles hmode
      cases Option.some.inj hr2
      exact goodRoles_of_eq r _ hroles hmode (ih r hr)
    | vote r r4 voter target draw hr hok =>
      obtain ⟨_, _, _, hif⟩ := castVoteCore_ok draw r voter target r4 hok
      cases Option.some.inj hr2
      by_cases hth : aliveCountOf r ≤ (setA r.votes voter target).length
      · rw [if_pos hth] at hif
        subst hif
        have hf := processVotesCore_fields draw { r with votes := setA r.votes voter target }
        exact goodRoles_of_eq r _ hf.1 hf.2.1 (ih r hr)
      · rw [if_neg hth] at hif
        subst hif
        exact goodRoles_of_eq r _ rfl rfl (ih r hr)
    | removeKeep r r4 pid hr hrem =>
      obtain ⟨_, _, hroles, hmode, _, _, _⟩ := removePlayerCore_some r pid r4 hrem
      cases Option.some.inj hr2
      exact goodRoles_of_eq r _ hroles hmode (ih r hr)
    | removeLast r pid hr hrem =>
      cases hr2
    | reset r caller hr hhost =>
      cases Option.some.inj hr2
      simp [resetGameCore] at hph
    | nextRound r n od now hpend hr =>
      cases Option.some.inj hr2
      obtain ⟨_, _, hroles, hmode⟩ := startNextRoundCore_fields od now r
      exact goodRoles_of_eq r _ hroles hmode (ih r hr)
    | nextRoundGone n hpend hr =>
      cases hr2

/-- Claim C7: within one started game — from a successful start until the
room returns to the lobby or is deleted — exactly one identifier in the
roles map holds the odd role of the game mode (infiltrator in variant-a,
spy in variant-b), every assigned role is either that odd role or the
regular role of the mode, and the two odd styles never coexist. -/
theorem claim_c7_one_odd (ds : WordDataset) (s : Sys) (hin : InGame ds s) :
    ∀ r, s.room = some r →
      (r.roles.filter (fun e => e.2 == oddRoleOf r.mode)).length = 1 ∧
      (∀ e ∈ r.roles, e.2 = oddRoleOf r.mode ∨ e.2 = regularRoleOf r.mode) ∧
      ¬ ((∃ e ∈ r.roles, e.2 = Role.infiltrator) ∧
          ∃ e ∈ r.roles, e.2 = Role.spy) := by
  intro r hr
  obtain ⟨g1, g2⟩ := inGame_goodRoles ds s hin r hr
  refine ⟨g1, g2, ?_⟩
  rintro ⟨⟨e1, he1, hv1⟩, ⟨e2, he2, hv2⟩⟩
  cases hm : r.mode
  · rcases g2 e2 he2 with h | h <;> rw [hm] at h <;> rw [hv2] at h <;>
      exact absurd h (by decide)
  · rcases g2 e1 he1 with h | h <;> rw [hm] at h <;> rw [hv1] at h <;>
      exact absurd h (by decide)

theorem reach_sysV3 :
    Reachable ds0 (initSys "XXXXX" "A" "a") ⟨some s3v, false, 0⟩ := by
  have h1 : Step ds0 (initSys "XXXXX" "A" "a") ⟨some roomAB, false, 0⟩ :=
    Step.join (initSys "XXXXX" "A" "a") roomA roomAB "B" "b" rfl rfl
  have h2 : Step ds0 ⟨some roomAB, false, 0⟩ ⟨some roomABC, false, 0⟩ :=
    Step.join ⟨some roomAB, false, 0⟩ roomAB roomABC "C" "c" rfl rfl
  have h3 : Step ds0 ⟨some roomABC, false, 0⟩ ⟨some startedABC, true, 0⟩ :=
    Step.start ⟨some roomABC, false, 0⟩ roomABC startedABC "A" Mode.infiltrator rs0 100
      rfl rfl rfl
  have h4 : Step ds0 ⟨some startedABC, true, 0⟩ ⟨some s3a, true, 0⟩ :=
    Step.timerFire ⟨some startedABC, true, 0⟩ startedABC s3a 200 true rfl rfl rfl
  have h5 : Step ds0 ⟨some s3a, true, 0⟩ ⟨some s3b, true, 0⟩ :=
    Step.timerFire ⟨some s3a, true, 0⟩ s3a s3b 300 true rfl rfl rfl
  have h6 : Step ds0 ⟨some s3b, true, 0⟩ ⟨some s3v, false, 0⟩ :=
    Step.timerFire ⟨some s3b, true, 0⟩ s3b s3v 400 false rfl rfl rfl
  exact Relation.ReflTransGen.tail (Relation.ReflTransGen.tail
    (Relation.ReflTransGen.tail (Relation.ReflTransGen.tail
      (Relation.ReflTransGen.tail (Relation.ReflTransGen.tail
        Relation.ReflTransGen.refl h1) h2) h3) h4) h5) h6

theorem reach_c1 :
    Reachable ds0 (initSys "XXXXX" "A" "a") ⟨some c1r3, false, 0⟩ := by
  have h7 : Step ds0 ⟨some s3v, false, 0⟩ ⟨some c1r1, false, 0⟩ :=
    Step.removeKeep ⟨some s3v, false, 0⟩ s3v c1r1 "C" rfl rfl
  have h8 : Step ds0 ⟨some c1r1, false, 0⟩ ⟨some c1r2, false, 0⟩ :=
    Step.vote ⟨some c1r1, false, 0⟩ c1r1 c1r2 "B" "A" 0 rfl rfl
  have h9 : Step ds0 ⟨some c1r2, false, 0⟩ ⟨some c1r3, false, 0⟩ :=
    Step.vote ⟨some c1r2, false, 0⟩ c1r2 c1r3 "A" "A" 0 rfl rfl
  exact Relation.ReflTransGen.tail (Relation.ReflTransGen.tail
    (Relation.ReflTransGen.tail reach_sysV3 h7) h8) h9

/-- Counterexample to claim C1 as stated: in a reachable variant-a game
(one citizen disconnected during voting, the other citizen then eliminated)
only ONE player remains alive, yet the code declares the odd-one-out the
winner, while the spec reading "exactly 2 players remain alive" declares no
winner and lets the game continue. -/
theorem claim_c1_counterexample :
    Reachable ds0 (initSys "XXXXX" "A" "a") ⟨some c1r3, false, 0⟩ ∧
    c1r3.phase = GamePhase.ended ∧
    c1r3.winner = some "infiltrator" ∧
    aliveCountOf c1r3 = 1 ∧
    checkWinCondition c1r3 = some "infiltrator" ∧
    winConditionSpecExact c1r3 = none :=
  ⟨reach_c1, by decide, by decide, by decide, by decide, by decide⟩

theorem reach_c5 :
    Reachable ds0 (initSys "XXXXX" "A" "a") ⟨some c5r4, false, 0⟩ := by
  have h7 : Step ds0 ⟨some s3v, false, 0⟩ ⟨some c5r1, false, 0⟩ :=
    Step.vote ⟨some s3v, false, 0⟩ s3v c5r1 "A" "B" 0 rfl rfl
  have h8 : Step ds0 ⟨some c5r1, false, 0⟩ ⟨some c5r2, false, 0⟩ :=
    Step.vote ⟨some c5r1, false, 0⟩ c5r1 c5r2 "B" "A" 0 rfl rfl
  have h9 : Step ds0 ⟨some c5r2, false, 0⟩ ⟨some c5r3, false, 0⟩ :=
    Step.removeKeep ⟨some c5r2, false, 0⟩ c5r2 c5r3 "A" rfl rfl
  have h10 : Step ds0 ⟨some c5r3, false, 0⟩ ⟨some c5r4, false, 0⟩ :=
    Step.removeKeep ⟨some c5r3, false, 0⟩ c5r3 c5r4 "B" rfl rfl
  exact Relation.ReflTransGen.tail (Relation.ReflTransGen.tail
    (Relation.ReflTransGen.tail (Relation.ReflTransGen.tail reach_sysV3 h7) h8) h9) h10

/-- Counterexample to claim C5 as stated: in a reachable voting-phase state
the votes map holds 2 recorded votes while only 1 player is alive (the two
voters disconnected after voting; their votes were neither removed nor did
the removals trigger a tally). -/
theorem claim_c5_counterexample :
    Reachable ds0 (initSys "XXXXX" "A" "a") ⟨some c5r4, false, 0⟩ ∧
    c5r4.phase = GamePhase.voting ∧
    c5r4.votes.length = 2 ∧
    aliveCountOf c5r4 = 1 :=
  ⟨reach_c5, by decide, by decide, by decide⟩

theorem reach_sysV4 :
    Reachable ds0 (initSys "XXXXX" "A" "a") ⟨some s4v, false, 0⟩ := by
  have h1 : Step ds0 (initSys "XXXXX" "A" "a") ⟨some roomAB, false, 0⟩ :=
    Step.join (initSys "XXXXX" "A" "a") roomA roomAB "B" "b" rfl rfl
  have h2 : Step ds0 ⟨some roomAB, false, 0⟩ ⟨some roomABC, false, 0⟩ :=
    Step.join ⟨some roomAB, false, 0⟩ roomAB roomABC "C" "c" rfl rfl
  have h3 : Step ds0 ⟨some roomABC, false, 0⟩ ⟨some roomABCD, false, 0⟩ :=
    Step.join ⟨some roomABC, false, 0⟩ roomABC roomABCD "D" "d" rfl rfl
  have h4 : Step ds0 ⟨some roomABCD, false, 0⟩ ⟨some started4, true, 0⟩ :=
    Step.start ⟨some roomABCD, false, 0⟩ roomABCD started4 "A" Mode.infiltrator rs0 100
      rfl rfl rfl
  have h5 : Step ds0 ⟨some started4, true, 0⟩ ⟨some s4a, true, 0⟩ :=
    Step.timerFire ⟨some started4, true, 0⟩ started4 s4a 200 true rfl rfl rfl
  have h6 : Step ds0 ⟨some s4a, true, 0⟩ ⟨some s4b, true, 0⟩ :=
    Step.timerFire ⟨some s4a, true, 0⟩ s4a s4b 300 true rfl rfl rfl
  have h7 : Step ds0 ⟨some s4b, true, 0⟩ ⟨some s4c, true, 0⟩ :=
    Step.timerFire ⟨some s4b, true, 0⟩ s4b s4c 400 true rfl rfl rfl
  have h8 : Step ds0 ⟨some s4c, true, 0⟩ ⟨some s4v, false, 0⟩ :=
    Step.timerFire ⟨some s4c, true, 0⟩ s4c s4v 500 false rfl rfl rfl
  exact Relation.ReflTransGen.tail (Relation.ReflTransGen.tail
    (Relation.ReflTransGen.tail (Relation.ReflTransGen.tail
      (Relation.ReflTransGen.tail (Relation.ReflTransGen.tail
        (Relation.ReflTransGen.tail (Relation.ReflTransGen.tail
          Relation.ReflTransGen.refl h1) h2) h3) h4) h5) h6) h7) h8

theorem reach_c3 :
    Reachable ds0 (initSys "XXXXX" "A" "a") ⟨some c3r4, false, 0⟩ := by
  have h9 : Step ds0 ⟨some s4v, false, 0⟩ ⟨some c3r1, false, 0⟩ :=
    Step.vote ⟨some s4v, false, 0⟩ s4v c3r1 "D" "B" 0 rfl rfl
  have h10 : Step ds0 ⟨some c3r1, false, 0⟩ ⟨some c3r2, false, 0⟩ :=
    Step.removeKeep ⟨some c3r1, false, 0⟩ c3r1 c3r2 "D" rfl rfl
  have h11 : Step ds0 ⟨some c3r2, false, 0⟩ ⟨some c3r3, false, 0⟩ :=
    Step.vote ⟨some c3r2, false, 0⟩ c3r2 c3r3 "A" "B" 0 rfl rfl
  have h12 : Step ds0 ⟨some c3r3, false, 0⟩ ⟨some c3r4, false, 0⟩ :=
    Step.vote ⟨some c3r3, false, 0⟩ c3r3 c3r4 "B" "C" 0 rfl rfl
  exact Relation.ReflTransGen.tail (Relation.ReflTransGen.tail
    (Relation.ReflTransGen.tail (Relation.ReflTransGen.tail reach_sysV4 h9) h10) h11) h12

/-- Counterexample to claim C3 as stated: in a reachable voting state, the
vote cast by the disconnected player D is still recorded; the vote that
completes the round is tallied over ALL recorded votes (B receives count 2),
whereas among alive players' submitted votes B has count 1 and is tied with
C; the code therefore deterministically eliminates B although the spec
reading would pick at random between B and C. -/
theorem claim_c3_counterexample :
    Reachable ds0 (initSys "XXXXX" "A" "a") ⟨some c3r4, false, 0⟩ ∧
    c3r3.phase = GamePhase.voting ∧
    c3r3.votes = [("D", "B"), ("A", "B")] ∧
    (c3r3.players.find? (fun p => p.id == "D")).isSome = false ∧
    lookupA (tallyOf (setA c3r3.votes "B" "C")) "B" = some 2 ∧
    lookupA (tallySpecAliveVoters { c3r3 with votes := setA c3r3.votes "B" "C" }) "B"
      = some 1 ∧
    maxCandidates (tallyOf (setA c3r3.votes "B" "C")) = (2, ["B"]) ∧
    maxCandidates (tallySpecAliveVoters { c3r3 with votes := setA c3r3.votes "B" "C" })
      = (1, ["B", "C"]) ∧
    c3r4.eliminated = ["B"] ∧
    c3r4.lastEliminated = some "B" :=
  ⟨reach_c3, by decide, by decide, by decide, by decide, by decide, by decide,
    by decide, by decide, by decide⟩

theorem reach_c6 :
    Reachable ds0 (initSys "XXXXX" "A" "a") ⟨some c6r5, false, 1⟩ := by
  have h9 : Step ds0 ⟨some s4v, false, 0⟩ ⟨some c6r1, false, 0⟩ :=
    Step.vote ⟨some s4v, false, 0⟩ s4v c6r1 "A" "D" 0 rfl rfl
  have h10 : Step ds0 ⟨some c6r1, false, 0⟩ ⟨some c6r2, false, 0⟩ :=
    Step.vote ⟨some c6r1, false, 0⟩ c6r1 c6r2 "B" "D" 0 rfl rfl
  have h11 : Step ds0 ⟨some c6r2, false, 0⟩ ⟨some c6r3, false, 0⟩ :=
    Step.vote ⟨some c6r2, false, 0⟩ c6r2 c6r3 "C" "D" 0 rfl rfl
  have h12 : Step ds0 ⟨some c6r3, false, 0⟩ ⟨some c6r4, false, 1⟩ :=
    Step.vote ⟨some c6r3, false, 0⟩ c6r3 c6r4 "D" "A" 0 rfl rfl
  have h13 : Step ds0 ⟨some c6r4, false, 1⟩ ⟨some c6r5, false, 1⟩ :=
    Step.reset ⟨some c6r4, false, 1⟩ c6r4 "A" rfl rfl
  exact Relation.ReflTransGen.tail (Relation.ReflTransGen.tail
    (Relation.ReflTransGen.tail (Relation.ReflTransGen.tail
      (Relation.ReflTransGen.tail reach_sysV4 h9) h10) h11) h12) h13

/-- Claim C6 is violated by the code (code bug): the 5-second next-round
callback scheduled by the tally is not stored in `roomTimers`, so
`resetGame` cannot cancel it.  In this reachable trace the room has been
reset to the lobby with the callback still pending; when the callback fires,
`startNextRound` moves the reset room from the lobby to the speaking phase
with an incremented round and no role assignments. -/
theorem claim_c6_stale_timer :
    Reachable ds0 (initSys "XXXXX" "A" "a") ⟨some c6r5, false, 1⟩ ∧
    c6r5.phase = GamePhase.lobby ∧
    Step ds0 ⟨some c6r5, false, 1⟩ ⟨some c6r6, true, 0⟩ ∧
    c6r6.phase = GamePhase.speaking ∧
    c6r6.round = 2 ∧
    c6r6.roles = [] :=
  ⟨reach_c6, by decide,
    Step.nextRound ⟨some c6r5, false, 1⟩ c6r5 0 od0 900 rfl rfl,
    by decide, by decide, by decide⟩

/-! ## Witnesses instantiating the claim theorems on concrete inputs -/

theorem claim_c2_witness : startedABC.phase = GamePhase.speaking :=
  (claim_c2_start_game.1 ds0 rs0 100 roomABC Mode.infiltrator startedABC rfl).2.1

theorem claim_c3_witness : (processVotesCore 0 tallyRoomW).lastEliminated = some "B" :=
  (claim_c3_tally.2.2.2 0 tallyRoomW "B" 2 { id := "B", name := "b", alive := true }
    (by decide) (by decide) (by decide)).2.1

theorem claim_c4_witness :
    skipTurnCore 200 startedABC "B" = .ok (advanceTurnCore 200 startedABC) :=
  (claim_c4_turn_advance 200 startedABC "B").2.2.2.2.2 rfl rfl

theorem claim_c5_witness : (presentVoteKeys s3v).length ≤ aliveCountOf s3v :=
  claim_c5_votes_invariant.1 ds0 "XXXXX" "A" "a" ⟨some s3v, false, 0⟩ s3v
    reach_sysV3 rfl (by decide)

theorem claim_c7_witness :
    (startedABC.roles.filter (fun e => e.2 == oddRoleOf startedABC.mode)).length = 1 :=
  (claim_c7_one_odd ds0 ⟨some startedABC, true, 0⟩
    (InGame.start ⟨some roomABC, false, 0⟩ roomABC startedABC "A" Mode.infiltrator rs0 100
      rfl rfl rfl)
    startedABC rfl).1

theorem claim_c8_witness : lookupA voteResW.votes "A" = some "B" :=
  ((claim_c8_cast_vote 0 (some voteRoomW) "A" "B").2 voteRoomW voteResW rfl rfl).2.1

theorem claim_c10_witness :
    trimJS "host" = "" ∨
    (createRoom "XXXXX" "h1" "host").players.any
      (fun p => toLowerJS p.name == toLowerJS (trimJS "host")) = true :=
  ((claim_c10_name_validation "XXXXX" "h1" "p2" "XXXXX" "host"
      (some (createRoom "XXXXX" "h1" "host"))).2 (createRoom "XXXXX" "h1" "host")
    rfl rfl (by decide)).mp ⟨"Name already taken", rfl⟩

end ShadowSignal
